import Mathlib

/-!
Verification of the constrained-likelihood score-test engine of
`src/result-validation/two-group.js` (clinical-trial-stats).

The JavaScript functions are embedded shallowly over `ℚ`:

* every arithmetic operation of the source is mirrored exactly (IEEE doubles
  are modelled by exact rationals; all constants such as `1e-8` are exact);
* `Math.sqrt` never needs to be executed inside the embedded control flow:
  the only comparisons the source makes against a square root
  (`z > z_alpha` with `z = c / Math.sqrt M`) are embedded as the exactly
  equivalent rational sign-and-square test `zGtBool`, proved equivalent to
  the real-number comparison in `zGtBool_iff`;
* real-valued outputs (`z_score`, `p_value`, Wald-style CI end points) are
  interpreted through `Real.sqrt` on top of the rational data;
* the standard-normal CDF/quantile approximations in
  `core/normal-distribution.js` are the external leaf dependency of the spec;
  they are abstracted as function parameters (`phi`, `acklam`), while the
  finiteness guards of `normalInverse` (its lines 85-88) are embedded
  faithfully, with `none` standing for the non-finite values `±Infinity`;
* bounded `for` loops become fuel-indexed recursions with the source's
  iteration caps as the initial fuel.
-/

-- The Batteries rational primitives are `@[irreducible]`; making them
-- semireducible lets `decide` evaluate the embedded functions on concrete
-- inputs (the kernel re-checks those evaluations independently).
attribute [local semireducible] Rat.add Rat.mul Rat.inv Rat.sub

namespace TwoGroup

/-- A pair of estimated proportions, as returned by both constrained-MLE
solvers (`{p1_rmle, p2_rmle}` in `calculateFMRMLE`, `{p1_mle, p2_mle}` in
`calculateMNConstrainedMLE`). -/
structure ProbPair where
  p1 : ℚ
  p2 : ℚ
  deriving DecidableEq

/-- `safeNumber` from `core/safe-math.js`: over `ℚ` every value is a finite
number, so the NaN/Infinity/non-number defusing paths are unreachable and
the function is the identity on its first argument. -/
def safeNumber (value _fallback : ℚ) : ℚ :=
  value

/-- `safeDivide` from `core/safe-math.js`: returns `fallback` when the
denominator is within `1e-10` of zero, otherwise the exact quotient (which
over `ℚ` is always finite). -/
def safeDivide (a b fallback : ℚ) : ℚ :=
  if |b| < 1 / 10 ^ 10 then fallback else a / b

/-- Lines 85-88 of `core/normal-distribution.js`: `p ≤ 0` yields `-Infinity`
and `p ≥ 1` yields `+Infinity`, both encoded as `none` (callers only ever
test `isFinite`); on `(0, 1)` the Acklam rational approximation — the
external normal-quantile leaf, out of scope per the spec — produces a finite
value, abstracted here as the parameter `acklam`.  The LRU cache of the
source is value-transparent and therefore elided. -/
def normalInverse (acklam : ℚ → ℚ) (p : ℚ) : Option ℚ :=
  if p ≤ 0 then none
  else if 1 ≤ p then none
  else some (acklam p)

/-! ### Farrington-Manning restricted MLE (`calculateFMRMLE`, lines 26-74) -/

/-- The Newton-Raphson loop of `calculateFMRMLE` (lines 37-66), as a
fuel-indexed recursion with the source's cap of 20 iterations.  Each pass:
if `p1` or `p2 = p1 + delta0` has left `(0, 1)`, reset `p1` to the clipped
pooled value and stop; otherwise take a Newton step `p1 += score/info`; on
convergence (`|Δp1| < 1e-8`) stop with the *unclipped* update, else clip
into `[0.001, 0.999 - max(0, delta0)]` and continue. -/
def fmLoop (p1_obs p2_obs n1 n2 delta0 p_pooled : ℚ) : ℕ → ℚ → ℚ
  | 0, p1_est => p1_est
  | fuel + 1, p1_est =>
    let p2_est := p1_est + delta0
    if p2_est ≤ 0 ∨ 1 ≤ p2_est ∨ p1_est ≤ 0 ∨ 1 ≤ p1_est then
      max (1 / 1000) (min (999 / 1000 - delta0) (p_pooled - delta0 / 2))
    else
      let score := n1 * (p1_obs / p1_est - (1 - p1_obs) / (1 - p1_est)) +
        n2 * (p2_obs / p2_est - (1 - p2_obs) / (1 - p2_est))
      let info := n1 * (p1_obs / (p1_est * p1_est) +
          (1 - p1_obs) / ((1 - p1_est) * (1 - p1_est))) +
        n2 * (p2_obs / (p2_est * p2_est) +
          (1 - p2_obs) / ((1 - p2_est) * (1 - p2_est)))
      let delta_p := score / info
      let p1_next := p1_est + delta_p
      if |delta_p| < 1 / 10 ^ 8 then p1_next
      else fmLoop p1_obs p2_obs n1 n2 delta0 p_pooled fuel
        (max (1 / 1000) (min (999 / 1000 - max 0 delta0) p1_next))

/-- `calculateFMRMLE` (lines 26-74): Newton-Raphson solution of the
constrained score equation, started from the weighted pooled rate minus
`delta0/2` clipped into `[0.001, 0.999]`; the returned `p2` is the final
`p1 + delta0` clipped into `[0.001, 0.999]` (line 68). -/
def calculateFMRMLE (p1_obs p2_obs n1 n2 delta0 : ℚ) : ProbPair :=
  let p_pooled := (n1 * p1_obs + n2 * p2_obs) / (n1 + n2)
  let p1_init := max (1 / 1000) (min (999 / 1000) (p_pooled - delta0 / 2))
  let p1_est := fmLoop p1_obs p2_obs n1 n2 delta0 p_pooled 20 p1_init
  ⟨p1_est, max (1 / 1000) (min (999 / 1000) (p1_est + delta0))⟩

/-! ### Miettinen-Nurminen constrained MLE (`calculateMNConstrainedMLE`,
lines 95-160) -/

/-- The score function `scoreFunc` of `calculateMNConstrainedMLE`
(lines 122-125): derivative of the constrained log-likelihood in `p1`,
with `p2 = p1 + delta0`. -/
def mnScoreFunc (x1 n1 x2 n2 delta0 p1 : ℚ) : ℚ :=
  let p2 := p1 + delta0
  x1 / p1 - (n1 - x1) / (1 - p1) + x2 / p2 - (n2 - x2) / (1 - p2)

/-- Lower end `p1_min` of the feasible interval for `p1` (line 110). -/
def p1MinOf (delta0 : ℚ) : ℚ :=
  max (1 / 10 ^ 8) (-delta0 + 1 / 10 ^ 8)

/-- Upper end `p1_max` of the feasible interval for `p1` (line 111). -/
def p1MaxOf (delta0 : ℚ) : ℚ :=
  min (1 - 1 / 10 ^ 8) (1 - delta0 - 1 / 10 ^ 8)

/-- The bisection loop of `calculateMNConstrainedMLE` (lines 140-159), fuel
cap 100: stop at the midpoint once `|score| < 1e-12` or the interval is
narrower than `1e-12`; otherwise move the end at which the score has the
same sign as the midpoint score.  Exhausted fuel also returns the midpoint
(line 158). -/
def mnBisect (sc : ℚ → ℚ) : ℕ → ℚ → ℚ → ℚ
  | 0, lo, hi => (lo + hi) / 2
  | fuel + 1, lo, hi =>
    let mid := (lo + hi) / 2
    if |sc mid| < 1 / 10 ^ 12 ∨ |hi - lo| < 1 / 10 ^ 12 then mid
    else if 0 < sc mid then mnBisect sc fuel mid hi
    else mnBisect sc fuel lo mid

/-- `calculateMNConstrainedMLE` (lines 95-160): pooled closed form when
`|delta0| < 1e-10`; clipped midpoint when the feasible interval is empty
(`p1_min ≥ p1_max`, lines 114-118); the end point with the favourable score
sign when the score does not change sign (lines 132-137); otherwise
bisection. -/
def calculateMNConstrainedMLE (x1 n1 x2 n2 delta0 : ℚ) : ProbPair :=
  let N := n1 + n2
  if |delta0| < 1 / 10 ^ 10 then
    let p_pooled := (x1 + x2) / N
    ⟨p_pooled, p_pooled⟩
  else if p1MaxOf delta0 ≤ p1MinOf delta0 then
    let p1_est := max (1 / 10 ^ 8)
      (min (1 - 1 / 10 ^ 8) ((p1MinOf delta0 + p1MaxOf delta0) / 2))
    let p2_est := max (1 / 10 ^ 8) (min (1 - 1 / 10 ^ 8) (p1_est + delta0))
    ⟨p1_est, p2_est⟩
  else if mnScoreFunc x1 n1 x2 n2 delta0 (p1MinOf delta0) ≤ 0 then
    ⟨p1MinOf delta0, p1MinOf delta0 + delta0⟩
  else if 0 ≤ mnScoreFunc x1 n1 x2 n2 delta0 (p1MaxOf delta0) then
    ⟨p1MaxOf delta0, p1MaxOf delta0 + delta0⟩
  else
    let p1_est := mnBisect (mnScoreFunc x1 n1 x2 n2 delta0) 100
      (p1MinOf delta0) (p1MaxOf delta0)
    ⟨p1_est, p1_est + delta0⟩

/-! ### Variance, score statistic, confidence-interval inversion -/

/-- The spec's plug-in variance formula (§4.3, stated from the spec's own
words, for refinement comparison with the code):
`p1*(1-p1)/n1 + p2*(1-p2)/n2`. -/
def specVariance (p1 p2 n1 n2 : ℚ) : ℚ :=
  p1 * (1 - p1) / n1 + p2 * (1 - p2) / n2

/-- The Miettinen-Nurminen variance with small-sample correction factor
`N/(N-1)` (lines 184-187 of `calculateMNResult`, repeated verbatim at
lines 220-227 of `findMNCIBound`). -/
def mnVariance (pair : ProbPair) (n1 n2 : ℚ) : ℚ :=
  ((n1 + n2) / (n1 + n2 - 1)) *
    ((pair.p1 * (1 - pair.p1)) / n1 + (pair.p2 * (1 - pair.p2)) / n2)

/-- `var_mn` recomputed at a candidate `delta0`, as `calcZ` inside
`findMNCIBound` does (lines 224-228). -/
def mnVarAt (x1 n1 x2 n2 delta0 : ℚ) : ℚ :=
  mnVariance (calculateMNConstrainedMLE x1 n1 x2 n2 delta0) n1 n2

/-- Exact rational embedding of the comparison `a < c / Real.sqrt M`
(for `0 < M`), i.e. of the source's `z > z_alpha` with
`z = c / Math.sqrt(M)`, by sign analysis and squaring.
`zGtBool_iff` proves the equivalence with the real comparison. -/
def zGtBool (c a M : ℚ) : Bool :=
  if 0 ≤ a then decide (0 < c) && decide (a ^ 2 * M < c ^ 2)
  else decide (0 ≤ c) || decide (c ^ 2 < a ^ 2 * M)

/-- The lower-bound bisection of `findMNCIBound` (lines 234-248): `zb mid`
embeds `z(mid) > z_alpha`; on `true` move `lo`, else move `hi`; break once
`|hi - lo| < 1e-8`; return `lo`. Fuel cap 100. -/
def mnLowerLoop (zb : ℚ → Bool) : ℕ → ℚ → ℚ → ℚ
  | 0, lo, _hi => lo
  | fuel + 1, lo, hi =>
    let mid := (lo + hi) / 2
    if zb mid then
      (if |hi - mid| < 1 / 10 ^ 8 then mid else mnLowerLoop zb fuel mid hi)
    else
      (if |mid - lo| < 1 / 10 ^ 8 then lo else mnLowerLoop zb fuel lo mid)

/-- The upper-bound bisection of `findMNCIBound` (lines 249-264): `zb mid`
embeds `z(mid) < -z_alpha`; on `true` move `hi`, else move `lo`; break once
`|hi - lo| < 1e-8`; return `hi`. Fuel cap 100. -/
def mnUpperLoop (zb : ℚ → Bool) : ℕ → ℚ → ℚ → ℚ
  | 0, _lo, hi => hi
  | fuel + 1, lo, hi =>
    let mid := (lo + hi) / 2
    if zb mid then
      (if |mid - lo| < 1 / 10 ^ 8 then mid else mnUpperLoop zb fuel lo mid)
    else
      (if |hi - mid| < 1 / 10 ^ 8 then hi else mnUpperLoop zb fuel mid hi)

/-- `findMNCIBound` (lines 219-265).  `calcZ delta0` of the source is
`(diff - delta0) / Math.sqrt(Math.max(var_mn, 1e-12))`; the comparisons
`calcZ mid > z_alpha` (lower search) and `calcZ mid < -z_alpha` (upper
search) are embedded by `zGtBool` on the exact rational data.  `lower`
selects between the two bisections (`bound === 'lower'`). -/
def findMNCIBound (x1 n1 x2 n2 dif z_alpha : ℚ) (lower : Bool) : ℚ :=
  if lower then
    mnLowerLoop
      (fun delta0 =>
        zGtBool (dif - delta0) z_alpha (max (mnVarAt x1 n1 x2 n2 delta0) (1 / 10 ^ 12)))
      100 (max (-(9999 / 10000)) (dif - 1 / 2)) dif
  else
    mnUpperLoop
      (fun delta0 =>
        zGtBool (-(dif - delta0)) z_alpha (max (mnVarAt x1 n1 x2 n2 delta0) (1 / 10 ^ 12)))
      100 dif (min (9999 / 10000) (dif + 1 / 2))

/-- The score statistic `se > 0 ? (diff - delta0) / se : 0` with
`se = Math.sqrt v` (line 191 of `calculateMNResult`, line 289 of
`calculateFMResult`): `se > 0` holds exactly when `v > 0` (for `v < 0` the
JS square root is NaN and the comparison is false). `c` is the numerator
`diff - delta0`, `v` the variance under the square root. -/
noncomputable def zOfPair (c v : ℚ) : ℝ :=
  if 0 < v then (c : ℝ) / Real.sqrt (v : ℝ) else 0

/-- `z(delta0)` of the chain solver → variance → statistic exactly as
`calcZ` in `findMNCIBound` recomputes it:
`(diff - delta0) / Math.sqrt(Math.max(var_mn, 1e-12))`. -/
noncomputable def mnZAt (x1 n1 x2 n2 dif delta0 : ℚ) : ℝ :=
  ((dif - delta0 : ℚ) : ℝ) /
    Real.sqrt ((max (mnVarAt x1 n1 x2 n2 delta0) (1 / 10 ^ 12) : ℚ) : ℝ)

/-- `safeDivide(c, Math.sqrt v, 0)`: `0` when the root is below the `1e-10`
guard of `safeDivide` — including `v < 0`, where the JS root is NaN and
`safeDivide` falls back to `0` — otherwise the exact quotient.  This is the
form of every test statistic built from an `se` in the orchestrators. -/
noncomputable def tostZ (c v : ℚ) : ℝ :=
  if Real.sqrt (v : ℝ) < 1 / 10 ^ 10 then 0 else (c : ℝ) / Real.sqrt (v : ℝ)

/-- Return object of `calculateMNResult` (lines 199-205).  The rational
fields `znum`/`zvar` record the exact numerator `diff - delta0` and variance
`var_mn` from which the real-valued `z_score`, `p_value` and `se` are
built. -/
structure MNResult where
  ci_lower : ℚ
  ci_upper : ℚ
  znum : ℚ
  zvar : ℚ
  z_score : ℝ
  p_value : ℝ
  se : ℝ

/-- `calculateMNResult` (lines 173-206), with the normal CDF abstracted as
`phi`. -/
noncomputable def calculateMNResult (phi : ℝ → ℝ) (x1 n1 x2 n2 delta0 z_alpha : ℚ) :
    MNResult :=
  let p1_obs := x1 / n1
  let p2_obs := x2 / n2
  let dif := p2_obs - p1_obs
  let mle := calculateMNConstrainedMLE x1 n1 x2 n2 delta0
  let var_mn := mnVariance mle n1 n2
  let z := zOfPair (dif - delta0) var_mn
  { ci_lower := findMNCIBound x1 n1 x2 n2 dif z_alpha true
    ci_upper := findMNCIBound x1 n1 x2 n2 dif z_alpha false
    znum := dif - delta0
    zvar := var_mn
    z_score := z
    p_value := 1 - phi z
    se := Real.sqrt (var_mn : ℝ) }

/-- Return object of `calculateFMResult` (lines 300-307).  The rational
fields `dif`, `znum`, `zvar` (RMLE-based variance) and `varObs`
(observed-rate variance used for the CI) record the exact data underlying
the real-valued fields. -/
structure FMResult where
  dif : ℚ
  znum : ℚ
  zvar : ℚ
  varObs : ℚ
  ci_lower : ℝ
  ci_upper : ℝ
  z_score : ℝ
  p_value : ℝ
  se : ℝ

/-- `calculateFMResult` (lines 277-307), with the normal CDF abstracted as
`phi`. -/
noncomputable def calculateFMResult (phi : ℝ → ℝ) (p1 p2 n1 n2 delta0 z_alpha : ℚ) :
    FMResult :=
  let dif := p2 - p1
  let rmle := calculateFMRMLE p1 p2 n1 n2 delta0
  let var_h0 := (rmle.p1 * (1 - rmle.p1)) / n1 + (rmle.p2 * (1 - rmle.p2)) / n2
  let var_obs := (p1 * (1 - p1)) / n1 + (p2 * (1 - p2)) / n2
  let z := zOfPair (dif - delta0) var_h0
  { dif := dif
    znum := dif - delta0
    zvar := var_h0
    varObs := var_obs
    ci_lower := (dif : ℝ) - (z_alpha : ℝ) * Real.sqrt (var_obs : ℝ)
    ci_upper := (dif : ℝ) + (z_alpha : ℝ) * Real.sqrt (var_obs : ℝ)
    z_score := z
    p_value := 1 - phi z
    se := Real.sqrt (var_h0 : ℝ) }

/-! ### Result orchestrators (`calculateNIResult`, `calculateEqResult`) -/

/-- The method selector (`'wald' | 'fm' | 'wilson' | 'mn'`); any other
string falls through to the Wald default in the source, so the four
constructors are exhaustive. -/
inductive Method where
  | wald
  | fm
  | wilson
  | mn
  deriving DecidableEq

/-- The result object shape shared by the two-group orchestrators:
`{p1, p2, diff, ci_lower, ci_upper, p_value, testStatistic, isNonInferior}`
(the constant string metadata fields are omitted). -/
structure TwoGroupRes where
  p1 : ℝ
  p2 : ℝ
  diff : ℝ
  ci_lower : ℝ
  ci_upper : ℝ
  p_value : ℝ
  testStatistic : ℝ
  isNonInferior : Prop

/-- The early-return sentinel object
`{p1: 0, p2: 0, diff: 0, ci_lower: 0, ci_upper: 0, p_value: 1,
testStatistic: 0, isNonInferior: false}` (e.g. lines 338-349). -/
def zeroRes : TwoGroupRes :=
  ⟨0, 0, 0, 0, 0, 1, 0, False⟩

/-- Observed rates of `calculateNIResult`/`calculateEqResult`
(lines 326-333): continuity-corrected or plain, via `safeDivide`. -/
def obsRate (s n : ℚ) (useContinuity : Bool) : ℚ :=
  if useContinuity then safeDivide (s + 1 / 2) (n + 1) 0 else safeDivide s n 0

/-- `calculateNIResult` (lines 314-436), with the normal CDF (`phi`), the
Acklam quantile core (`acklam`) and `calculateWilsonCI` from
`core/confidence-interval.js` (`wilsonCI`, returning the pair
`(lower, upper)`; that file is not part of the sources under review)
abstracted as parameters. -/
noncomputable def calculateNIResult (phi : ℝ → ℝ) (acklam : ℚ → ℚ)
    (wilsonCI : ℚ → ℚ → ℚ → ℚ × ℚ) (n1 s1 n2 s2 delta alpha : ℚ)
    (useContinuity : Bool) (method : Method) : TwoGroupRes :=
  let p1 := obsRate s1 n1 useContinuity
  let p2 := obsRate s2 n2 useContinuity
  let dif := p2 - p1
  match normalInverse acklam (1 - alpha) with
  | none => zeroRes
  | some z_alpha =>
    match method with
    | Method.fm =>
      let r := calculateFMResult phi p1 p2 n1 n2 (-delta) z_alpha
      { p1 := (p1 : ℝ), p2 := (p2 : ℝ), diff := (dif : ℝ)
        ci_lower := r.ci_lower, ci_upper := r.ci_upper
        p_value := r.p_value, testStatistic := r.z_score
        isNonInferior := r.ci_lower > ((-delta : ℚ) : ℝ) }
    | Method.wilson =>
      let w1 := wilsonCI s1 n1 z_alpha
      let w2 := wilsonCI s2 n2 z_alpha
      let cl := (dif : ℝ) - Real.sqrt (((p2 - w2.1) ^ 2 + (w1.2 - p1) ^ 2 : ℚ) : ℝ)
      let cu := (dif : ℝ) + Real.sqrt (((w2.2 - p2) ^ 2 + (p1 - w1.1) ^ 2 : ℚ) : ℝ)
      let v := safeDivide (p1 * (1 - p1)) n1 0 + safeDivide (p2 * (1 - p2)) n2 0
      let z := tostZ (dif + delta) v
      { p1 := (p1 : ℝ), p2 := (p2 : ℝ), diff := (dif : ℝ)
        ci_lower := cl, ci_upper := cu
        p_value := 1 - phi z, testStatistic := z
        isNonInferior := cl > ((-delta : ℚ) : ℝ) }
    | Method.mn =>
      let r := calculateMNResult phi s1 n1 s2 n2 (-delta) z_alpha
      { p1 := (p1 : ℝ), p2 := (p2 : ℝ), diff := (dif : ℝ)
        ci_lower := ((r.ci_lower : ℚ) : ℝ), ci_upper := ((r.ci_upper : ℚ) : ℝ)
        p_value := r.p_value, testStatistic := r.z_score
        isNonInferior := ((r.ci_lower : ℚ) : ℝ) > ((-delta : ℚ) : ℝ) }
    | Method.wald =>
      let v := safeDivide (p1 * (1 - p1)) n1 0 + safeDivide (p2 * (1 - p2)) n2 0
      if v ≤ 0 then zeroRes
      else
        let z := tostZ (dif + delta) v
        { p1 := (p1 : ℝ), p2 := (p2 : ℝ), diff := (dif : ℝ)
          ci_lower := (dif : ℝ) - (z_alpha : ℝ) * Real.sqrt (v : ℝ)
          ci_upper := (dif : ℝ) + (z_alpha : ℝ) * Real.sqrt (v : ℝ)
          p_value := 1 - phi z, testStatistic := z
          isNonInferior := (dif : ℝ) - (z_alpha : ℝ) * Real.sqrt (v : ℝ) > ((-delta : ℚ) : ℝ) }

/-- The TOST tail shared by every branch of `calculateEqResult`
(lines 817-840): both one-sided statistics are built from the single
variance `v` (through `se = Math.sqrt v` and `safeDivide`), the reported
`p_value` is the larger one-sided p-value, and success is both CI bounds
strictly inside `(-delta, delta)`. -/
noncomputable def eqTail (phi : ℝ → ℝ) (p1 p2 dif delta : ℚ) (cl cu : ℝ) (v : ℚ) :
    TwoGroupRes :=
  let z1 := tostZ (dif + delta) v
  let z2 := tostZ (dif - delta) v
  { p1 := (p1 : ℝ), p2 := (p2 : ℝ), diff := (dif : ℝ)
    ci_lower := cl, ci_upper := cu
    p_value := max (1 - phi z1) (phi z2)
    testStatistic := (z1 + z2) / 2
    isNonInferior := cl > ((-delta : ℚ) : ℝ) ∧ cu < ((delta : ℚ) : ℝ) }

/-- `calculateEqResult` (lines 708-840), with the external leaves
abstracted as in `calculateNIResult`.  The TOST critical value is
`Φ⁻¹(1 - alpha/2)`. -/
noncomputable def calculateEqResult (phi : ℝ → ℝ) (acklam : ℚ → ℚ)
    (wilsonCI : ℚ → ℚ → ℚ → ℚ × ℚ) (n1 s1 n2 s2 delta alpha : ℚ)
    (useContinuity : Bool) (method : Method) : TwoGroupRes :=
  let p1 := obsRate s1 n1 useContinuity
  let p2 := obsRate s2 n2 useContinuity
  let dif := p2 - p1
  match normalInverse acklam (1 - alpha / 2) with
  | none => zeroRes
  | some z_alpha =>
    match method with
    | Method.fm =>
      let v := safeDivide (p1 * (1 - p1)) n1 0 + safeDivide (p2 * (1 - p2)) n2 0
      if v ≤ 0 then zeroRes
      else
        eqTail phi p1 p2 dif delta
          ((dif : ℝ) - (z_alpha : ℝ) * Real.sqrt (v : ℝ))
          ((dif : ℝ) + (z_alpha : ℝ) * Real.sqrt (v : ℝ)) v
    | Method.wilson =>
      let w1 := wilsonCI s1 n1 z_alpha
      let w2 := wilsonCI s2 n2 z_alpha
      let cl := (dif : ℝ) - Real.sqrt (((p2 - w2.1) ^ 2 + (w1.2 - p1) ^ 2 : ℚ) : ℝ)
      let cu := (dif : ℝ) + Real.sqrt (((w2.2 - p2) ^ 2 + (p1 - w1.1) ^ 2 : ℚ) : ℝ)
      let v := safeDivide (p1 * (1 - p1)) n1 0 + safeDivide (p2 * (1 - p2)) n2 0
      eqTail phi p1 p2 dif delta cl cu v
    | Method.mn =>
      let r := calculateMNResult phi s1 n1 s2 n2 0 z_alpha
      eqTail phi p1 p2 dif delta ((r.ci_lower : ℚ) : ℝ) ((r.ci_upper : ℚ) : ℝ) r.zvar
    | Method.wald =>
      let v := safeDivide (p1 * (1 - p1)) n1 0 + safeDivide (p2 * (1 - p2)) n2 0
      if v ≤ 0 then zeroRes
      else
        eqTail phi p1 p2 dif delta
          ((dif : ℝ) - (z_alpha : ℝ) * Real.sqrt (v : ℝ))
          ((dif : ℝ) + (z_alpha : ℝ) * Real.sqrt (v : ℝ)) v

/-! ### The squared comparison agrees with the real comparison -/

/-- `zGtBool c a M` decides exactly the real comparison
`a < c / Real.sqrt M` whenever `M > 0`: the embedding of the source's
`z > z_alpha` is faithful. -/
theorem zGtBool_iff (c a M : ℚ) (hM : 0 < M) :
    zGtBool c a M = true ↔ (a : ℝ) < (c : ℝ) / Real.sqrt (M : ℝ) := by
  have hMR : (0 : ℝ) < (M : ℝ) := by exact_mod_cast hM
  have hs : 0 < Real.sqrt (M : ℝ) := Real.sqrt_pos.mpr hMR
  have hsq : Real.sqrt (M : ℝ) ^ 2 = (M : ℝ) := Real.sq_sqrt hMR.le
  rw [lt_div_iff₀ hs]
  unfold zGtBool
  by_cases ha : 0 ≤ a
  · have haR : (0 : ℝ) ≤ (a : ℝ) := by exact_mod_cast ha
    rw [if_pos ha]
    simp only [Bool.and_eq_true, decide_eq_true_eq]
    constructor
    · rintro ⟨hc, hlt⟩
      have hcR : (0 : ℝ) < (c : ℝ) := by exact_mod_cast hc
      have hltR : (a : ℝ) ^ 2 * (M : ℝ) < (c : ℝ) ^ 2 := by exact_mod_cast hlt
      have h2 : ((a : ℝ) * Real.sqrt (M : ℝ)) ^ 2 < (c : ℝ) ^ 2 := by
        rw [mul_pow, hsq]; exact hltR
      exact lt_of_pow_lt_pow_left₀ 2 hcR.le h2
    · intro h
      have hprod : (0 : ℝ) ≤ (a : ℝ) * Real.sqrt (M : ℝ) :=
        mul_nonneg haR hs.le
      have hcR : (0 : ℝ) < (c : ℝ) := lt_of_le_of_lt hprod h
      refine ⟨by exact_mod_cast hcR, ?_⟩
      have h2 : ((a : ℝ) * Real.sqrt (M : ℝ)) ^ 2 < (c : ℝ) ^ 2 :=
        pow_lt_pow_left₀ h hprod two_ne_zero
      rw [mul_pow, hsq] at h2
      exact_mod_cast h2
  · have haR : (a : ℝ) < 0 := by
      have := lt_of_not_le ha
      exact_mod_cast this
    rw [if_neg ha]
    simp only [Bool.or_eq_true, decide_eq_true_eq]
    constructor
    · rintro (hc | hlt)
      · have hcR : (0 : ℝ) ≤ (c : ℝ) := by exact_mod_cast hc
        calc (a : ℝ) * Real.sqrt (M : ℝ) < 0 := mul_neg_of_neg_of_pos haR hs
          _ ≤ (c : ℝ) := hcR
      · by_cases hc : 0 ≤ c
        · have hcR : (0 : ℝ) ≤ (c : ℝ) := by exact_mod_cast hc
          calc (a : ℝ) * Real.sqrt (M : ℝ) < 0 := mul_neg_of_neg_of_pos haR hs
            _ ≤ (c : ℝ) := hcR
        · have hcR : (c : ℝ) < 0 := by exact_mod_cast lt_of_not_le hc
          have hltR : (c : ℝ) ^ 2 < (a : ℝ) ^ 2 * (M : ℝ) := by exact_mod_cast hlt
          have h2 : (-(c : ℝ)) ^ 2 < (-(a : ℝ) * Real.sqrt (M : ℝ)) ^ 2 := by
            rw [mul_pow, neg_pow, neg_pow, hsq]
            simpa using hltR
          have h3 : -(c : ℝ) < -(a : ℝ) * Real.sqrt (M : ℝ) :=
            lt_of_pow_lt_pow_left₀ 2 (mul_nonneg (by linarith) hs.le) h2
          nlinarith
    · intro h
      by_cases hc : 0 ≤ c
      · exact Or.inl hc
      · refine Or.inr ?_
        have hcR : (c : ℝ) < 0 := by exact_mod_cast lt_of_not_le hc
        have h3 : -(c : ℝ) < -(a : ℝ) * Real.sqrt (M : ℝ) := by nlinarith
        have h2 : (-(c : ℝ)) ^ 2 < (-(a : ℝ) * Real.sqrt (M : ℝ)) ^ 2 :=
          pow_lt_pow_left₀ h3 (by linarith) two_ne_zero
        rw [mul_pow, neg_pow, neg_pow, hsq] at h2
        have : (c : ℝ) ^ 2 < (a : ℝ) ^ 2 * (M : ℝ) := by simpa using h2
        exact_mod_cast this

/-! ### Invariants of the two CI bisection loops -/

/-- The lower-bound bisection stays inside its initial bracket. -/
theorem mnLowerLoop_mem (zb : ℚ → Bool) :
    ∀ (fuel : ℕ) (lo hi : ℚ), lo ≤ hi →
      lo ≤ mnLowerLoop zb fuel lo hi ∧ mnLowerLoop zb fuel lo hi ≤ hi := by
  intro fuel
  induction fuel with
  | zero => intro lo hi h; exact ⟨le_refl lo, h⟩
  | succ f ih =>
    intro lo hi h
    have hlom : lo ≤ (lo + hi) / 2 := by linarith
    have hmhi : (lo + hi) / 2 ≤ hi := by linarith
    simp only [mnLowerLoop]
    by_cases hz : zb ((lo + hi) / 2)
    · rw [if_pos hz]
      by_cases hw : |hi - (lo + hi) / 2| < 1 / 10 ^ 8
      · rw [if_pos hw]; exact ⟨hlom, hmhi⟩
      · rw [if_neg hw]
        rcases ih ((lo + hi) / 2) hi hmhi with ⟨h1, h2⟩
        exact ⟨le_trans hlom h1, h2⟩
    · rw [if_neg hz]
      by_cases hw : |(lo + hi) / 2 - lo| < 1 / 10 ^ 8
      · rw [if_pos hw]; exact ⟨le_refl lo, h⟩
      · rw [if_neg hw]
        rcases ih lo ((lo + hi) / 2) hlom with ⟨h1, h2⟩
        exact ⟨h1, le_trans h2 hmhi⟩

/-- The upper-bound bisection stays inside its initial bracket. -/
theorem mnUpperLoop_mem (zb : ℚ → Bool) :
    ∀ (fuel : ℕ) (lo hi : ℚ), lo ≤ hi →
      lo ≤ mnUpperLoop zb fuel lo hi ∧ mnUpperLoop zb fuel lo hi ≤ hi := by
  intro fuel
  induction fuel with
  | zero => intro lo hi h; exact ⟨h, le_refl hi⟩
  | succ f ih =>
    intro lo hi h
    have hlom : lo ≤ (lo + hi) / 2 := by linarith
    have hmhi : (lo + hi) / 2 ≤ hi := by linarith
    simp only [mnUpperLoop]
    by_cases hz : zb ((lo + hi) / 2)
    · rw [if_pos hz]
      by_cases hw : |(lo + hi) / 2 - lo| < 1 / 10 ^ 8
      · rw [if_pos hw]; exact ⟨hlom, hmhi⟩
      · rw [if_neg hw]
        rcases ih lo ((lo + hi) / 2) hlom with ⟨h1, h2⟩
        exact ⟨h1, le_trans h2 hmhi⟩
    · rw [if_neg hz]
      by_cases hw : |hi - (lo + hi) / 2| < 1 / 10 ^ 8
      · rw [if_pos hw]; exact ⟨h, le_refl hi⟩
      · rw [if_neg hw]
        rcases ih ((lo + hi) / 2) hi hmhi with ⟨h1, h2⟩
        exact ⟨le_trans hlom h1, h2⟩

/-- Any strict lower bound of both bracket ends is a strict lower bound of
the value returned by the lower-bound bisection (even on an inverted
bracket, which occurs when `diff < -0.9999`). -/
theorem mnLowerLoop_gt (zb : ℚ → Bool) :
    ∀ (fuel : ℕ) (lo hi b : ℚ), b < lo → b ≤ hi →
      b < mnLowerLoop zb fuel lo hi := by
  intro fuel
  induction fuel with
  | zero => intro lo hi b hblo _; exact hblo
  | succ f ih =>
    intro lo hi b hblo hbhi
    have hbm : b < (lo + hi) / 2 := by linarith
    simp only [mnLowerLoop]
    by_cases hz : zb ((lo + hi) / 2)
    · rw [if_pos hz]
      by_cases hw : |hi - (lo + hi) / 2| < 1 / 10 ^ 8
      · rw [if_pos hw]; exact hbm
      · rw [if_neg hw]; exact ih ((lo + hi) / 2) hi b hbm hbhi
    · rw [if_neg hz]
      by_cases hw : |(lo + hi) / 2 - lo| < 1 / 10 ^ 8
      · rw [if_pos hw]; exact hblo
      · rw [if_neg hw]; exact ih lo ((lo + hi) / 2) b hblo hbm.le

/-- Bracketing invariant of the lower-bound bisection: if `Q` holds at
`lo` and at every midpoint where the branch test fires, and `R` holds at
`hi` and at every midpoint where it does not, then `Q` holds at the
returned point and some point at most `max(1e-8 break, width/2^fuel)`
above it satisfies `R`. -/
theorem mnLowerLoop_bracket (zb : ℚ → Bool) (Q R : ℚ → Prop)
    (hQ : ∀ m, zb m = true → Q m) (hR : ∀ m, zb m = false → R m) :
    ∀ (fuel : ℕ) (lo hi : ℚ), lo ≤ hi → Q lo → R hi →
      Q (mnLowerLoop zb fuel lo hi) ∧
        ∃ H, R H ∧ mnLowerLoop zb fuel lo hi ≤ H ∧
          (H - mnLowerLoop zb fuel lo hi < 1 / 10 ^ 8 ∨
            H - mnLowerLoop zb fuel lo hi ≤ (hi - lo) / 2 ^ fuel) := by
  intro fuel
  induction fuel with
  | zero =>
    intro lo hi h hQlo hRhi
    refine ⟨hQlo, hi, hRhi, h, Or.inr ?_⟩
    simp only [mnLowerLoop, pow_zero, div_one]
    exact le_refl _
  | succ f ih =>
    intro lo hi h hQlo hRhi
    have hlom : lo ≤ (lo + hi) / 2 := by linarith
    have hmhi : (lo + hi) / 2 ≤ hi := by linarith
    simp only [mnLowerLoop]
    by_cases hz : zb ((lo + hi) / 2)
    · rw [if_pos hz]
      have hQm : Q ((lo + hi) / 2) := hQ _ hz
      by_cases hw : |hi - (lo + hi) / 2| < 1 / 10 ^ 8
      · rw [if_pos hw]
        refine ⟨hQm, hi, hRhi, hmhi, Or.inl ?_⟩
        rw [abs_of_nonneg (by linarith)] at hw
        exact hw
      · rw [if_neg hw]
        rcases ih ((lo + hi) / 2) hi hmhi hQm hRhi with ⟨h1, H, hRH, hle, hsmall⟩
        refine ⟨h1, H, hRH, hle, ?_⟩
        rcases hsmall with hs | hs
        · exact Or.inl hs
        · refine Or.inr ?_
          have heq : (hi - (lo + hi) / 2) / 2 ^ f = (hi - lo) / 2 ^ (f + 1) := by
            rw [pow_succ]; ring
          rw [← heq]
          exact hs
    · rw [if_neg hz]
      have hRm : R ((lo + hi) / 2) := hR _ (by simpa using hz)
      by_cases hw : |(lo + hi) / 2 - lo| < 1 / 10 ^ 8
      · rw [if_pos hw]
        refine ⟨hQlo, (lo + hi) / 2, hRm, hlom, Or.inl ?_⟩
        rw [abs_of_nonneg (by linarith)] at hw
        exact hw
      · rw [if_neg hw]
        rcases ih lo ((lo + hi) / 2) hlom hQlo hRm with ⟨h1, H, hRH, hle, hsmall⟩
        refine ⟨h1, H, hRH, hle, ?_⟩
        rcases hsmall with hs | hs
        · exact Or.inl hs
        · refine Or.inr ?_
          have heq : ((lo + hi) / 2 - lo) / 2 ^ f = (hi - lo) / 2 ^ (f + 1) := by
            rw [pow_succ]; ring
          rw [← heq]
          exact hs

/-- Bracketing invariant of the upper-bound bisection, mirror of
`mnLowerLoop_bracket`: here `Q` travels with `hi` (the returned end) and
`R` with `lo`. -/
theorem mnUpperLoop_bracket (zb : ℚ → Bool) (Q R : ℚ → Prop)
    (hQ : ∀ m, zb m = true → Q m) (hR : ∀ m, zb m = false → R m) :
    ∀ (fuel : ℕ) (lo hi : ℚ), lo ≤ hi → R lo → Q hi →
      Q (mnUpperLoop zb fuel lo hi) ∧
        ∃ G, R G ∧ G ≤ mnUpperLoop zb fuel lo hi ∧
          (mnUpperLoop zb fuel lo hi - G < 1 / 10 ^ 8 ∨
            mnUpperLoop zb fuel lo hi - G ≤ (hi - lo) / 2 ^ fuel) := by
  intro fuel
  induction fuel with
  | zero =>
    intro lo hi h hRlo hQhi
    refine ⟨hQhi, lo, hRlo, h, Or.inr ?_⟩
    simp only [mnUpperLoop, pow_zero, div_one]
    exact le_refl _
  | succ f ih =>
    intro lo hi h hRlo hQhi
    have hlom : lo ≤ (lo + hi) / 2 := by linarith
    have hmhi : (lo + hi) / 2 ≤ hi := by linarith
    simp only [mnUpperLoop]
    by_cases hz : zb ((lo + hi) / 2)
    · rw [if_pos hz]
      have hQm : Q ((lo + hi) / 2) := hQ _ hz
      by_cases hw : |(lo + hi) / 2 - lo| < 1 / 10 ^ 8
      · rw [if_pos hw]
        refine ⟨hQm, lo, hRlo, hlom, Or.inl ?_⟩
        rw [abs_of_nonneg (by linarith)] at hw
        exact hw
      · rw [if_neg hw]
        rcases ih lo ((lo + hi) / 2) hlom hRlo hQm with ⟨h1, G, hRG, hle, hsmall⟩
        refine ⟨h1, G, hRG, hle, ?_⟩
        rcases hsmall with hs | hs
        · exact Or.inl hs
        · refine Or.inr ?_
          have heq : ((lo + hi) / 2 - lo) / 2 ^ f = (hi - lo) / 2 ^ (f + 1) := by
            rw [pow_succ]; ring
          rw [← heq]
          exact hs
    · rw [if_neg hz]
      have hRm : R ((lo + hi) / 2) := hR _ (by simpa using hz)
      by_cases hw : |hi - (lo + hi) / 2| < 1 / 10 ^ 8
      · rw [if_pos hw]
        refine ⟨hQhi, (lo + hi) / 2, hRm, hmhi, Or.inl ?_⟩
        rw [abs_of_nonneg (by linarith)] at hw
        exact hw
      · rw [if_neg hw]
        rcases ih ((lo + hi) / 2) hi hmhi hRm hQhi with ⟨h1, G, hRG, hle, hsmall⟩
        refine ⟨h1, G, hRG, hle, ?_⟩
        rcases hsmall with hs | hs
        · exact Or.inl hs
        · refine Or.inr ?_
          have heq : (hi - (lo + hi) / 2) / 2 ^ f = (hi - lo) / 2 ^ (f + 1) := by
            rw [pow_succ]; ring
          rw [← heq]
          exact hs

/-! ### Definitional projection lemmas -/

/-- `zOfPair` with non-positive variance is the coerced `0` (the `: 0` arm
of the source's ternary). -/
theorem zOfPair_eq_zero (c v : ℚ) (h : v ≤ 0) : zOfPair c v = 0 :=
  if_neg (not_lt.mpr h)

/-- The `ci_lower` field of `calculateMNResult` is the lower-bound test
inversion at the observed difference. -/
theorem calculateMNResult_ci_lower (phi : ℝ → ℝ) (x1 n1 x2 n2 delta0 z_alpha : ℚ) :
    (calculateMNResult phi x1 n1 x2 n2 delta0 z_alpha).ci_lower =
      findMNCIBound x1 n1 x2 n2 (x2 / n2 - x1 / n1) z_alpha true :=
  rfl

/-- The `ci_upper` field of `calculateMNResult` is the upper-bound test
inversion at the observed difference. -/
theorem calculateMNResult_ci_upper (phi : ℝ → ℝ) (x1 n1 x2 n2 delta0 z_alpha : ℚ) :
    (calculateMNResult phi x1 n1 x2 n2 delta0 z_alpha).ci_upper =
      findMNCIBound x1 n1 x2 n2 (x2 / n2 - x1 / n1) z_alpha false :=
  rfl

/-- `findMNCIBound` with `bound = 'lower'` is the lower bisection started on
`[max(-0.9999, diff - 0.5), diff]`. -/
theorem findMNCIBound_lower_eq (x1 n1 x2 n2 dif z_alpha : ℚ) :
    findMNCIBound x1 n1 x2 n2 dif z_alpha true =
      mnLowerLoop
        (fun delta0 =>
          zGtBool (dif - delta0) z_alpha (max (mnVarAt x1 n1 x2 n2 delta0) (1 / 10 ^ 12)))
        100 (max (-(9999 / 10000)) (dif - 1 / 2)) dif := by
  simp [findMNCIBound]

/-- `findMNCIBound` with `bound = 'upper'` is the upper bisection started on
`[diff, min(0.9999, diff + 0.5)]`. -/
theorem findMNCIBound_upper_eq (x1 n1 x2 n2 dif z_alpha : ℚ) :
    findMNCIBound x1 n1 x2 n2 dif z_alpha false =
      mnUpperLoop
        (fun delta0 =>
          zGtBool (-(dif - delta0)) z_alpha (max (mnVarAt x1 n1 x2 n2 delta0) (1 / 10 ^ 12)))
        100 dif (min (9999 / 10000) (dif + 1 / 2)) := by
  simp [findMNCIBound]

/-! ### Claim C1 -/

/-- Claim C1, amended: whenever the chain variance is not strictly
positive (equivalently, `se = Math.sqrt(variance)` is not `> 0`, which
covers the NaN case `variance < 0`), both `calculateMNResult` and
`calculateFMResult` return the *coerced* statistic `z = 0` — the ternary
`se > 0 ? (diff - delta0) / se : 0` at lines 190-192 and 288-290.  No
explicit undefined sentinel is propagated, contrary to the original
claim. -/
theorem zScore_coerced_zero_of_variance_nonpos (phi : ℝ → ℝ)
    (x1 n1 x2 n2 delta0 z_alpha q1 q2 m1 m2 delta1 z_beta : ℚ) :
    ((calculateMNResult phi x1 n1 x2 n2 delta0 z_alpha).zvar ≤ 0 →
      (calculateMNResult phi x1 n1 x2 n2 delta0 z_alpha).z_score = 0) ∧
    ((calculateFMResult phi q1 q2 m1 m2 delta1 z_beta).zvar ≤ 0 →
      (calculateFMResult phi q1 q2 m1 m2 delta1 z_beta).z_score = 0) :=
  ⟨fun h => zOfPair_eq_zero _ _ h, fun h => zOfPair_eq_zero _ _ h⟩

/-- Claim C1, witness: at the degenerate inputs `x1 = x2 = 0` (MN) and
`p1Obs = p2Obs = 1, delta0 = -0.999` (FM, where the RMLE-based variance is
negative), the amended theorem applies and the statistic is `0`. -/
theorem zScore_coerced_zero_witness :
    (calculateMNResult (fun x => x) 0 1 0 1 0 (49 / 25)).z_score = 0 ∧
    (calculateFMResult (fun x => x) 1 1 10 10 (-(999 / 1000)) (49 / 25)).z_score = 0 :=
  ⟨(zScore_coerced_zero_of_variance_nonpos (fun x => x) 0 1 0 1 0 (49 / 25)
      1 1 10 10 (-(999 / 1000)) (49 / 25)).1 (by decide),
   (zScore_coerced_zero_of_variance_nonpos (fun x => x) 0 1 0 1 0 (49 / 25)
      1 1 10 10 (-(999 / 1000)) (49 / 25)).2 (by decide)⟩

/-- Claim C1, counterexample to the original claim: there are inputs on
which the variance is not strictly positive and the returned score
statistic is exactly the coerced value `z = 0` — not an undefined
sentinel.  MN: `x1 = 0, n1 = 1, x2 = 0, n2 = 1, delta0 = 0` gives variance
`0`; FM: `p1Obs = p2Obs = 1, n1 = n2 = 10, delta0 = -0.999` gives a
negative variance (its RMLE `p1Star = 1.4995` lies outside `[0, 1]`). -/
theorem zScore_coerced_zero_counterexample :
    ((calculateMNResult (fun x => x) 0 1 0 1 0 (49 / 25)).zvar ≤ 0 ∧
      (calculateMNResult (fun x => x) 0 1 0 1 0 (49 / 25)).z_score = 0) ∧
    ((calculateFMResult (fun x => x) 1 1 10 10 (-(999 / 1000)) (49 / 25)).zvar ≤ 0 ∧
      (calculateFMResult (fun x => x) 1 1 10 10 (-(999 / 1000)) (49 / 25)).z_score = 0) := by
  have h1 : (calculateMNResult (fun x : ℝ => x) 0 1 0 1 0 (49 / 25)).zvar ≤ 0 := by decide
  have h2 : (calculateFMResult (fun x : ℝ => x) 1 1 10 10 (-(999 / 1000)) (49 / 25)).zvar ≤ 0 := by
    decide
  refine ⟨⟨h1, ?_⟩, ⟨h2, ?_⟩⟩
  · show zOfPair ((0 : ℚ) / 1 - 0 / 1 - 0)
      (mnVariance (calculateMNConstrainedMLE 0 1 0 1 0) 1 1) = 0
    exact zOfPair_eq_zero _ _ (by decide)
  · show zOfPair ((1 : ℚ) - 1 - -(999 / 1000))
      ((calculateFMRMLE 1 1 10 10 (-(999 / 1000))).p1 *
          (1 - (calculateFMRMLE 1 1 10 10 (-(999 / 1000))).p1) / 10 +
        (calculateFMRMLE 1 1 10 10 (-(999 / 1000))).p2 *
          (1 - (calculateFMRMLE 1 1 10 10 (-(999 / 1000))).p2) / 10) = 0
    exact zOfPair_eq_zero _ _ (by decide)

/-! ### Claim C2 -/

/-- Claim C2, amended: the Miettinen-Nurminen solver always satisfies
`|p2Star - p1Star - delta0| < 1e-6` on feasible inputs (the deviation is
`|delta0| < 1e-10` in the pooled branch and exactly `0` otherwise), but the
Farrington-Manning solver satisfies the constraint only when its final
clamp (line 68) is inactive, i.e. when `p1Star + delta0` already lies in
`[0.001, 0.999]`; when the clamp fires, the deviation can exceed `1e-6`. -/
theorem solver_constraint_deviation :
    (∀ x1 n1 x2 n2 delta0 : ℚ,
      (∃ p : ℚ, 1 / 10 ^ 8 < p ∧ p < 1 - 1 / 10 ^ 8 ∧
        1 / 10 ^ 8 < p + delta0 ∧ p + delta0 < 1 - 1 / 10 ^ 8) →
      |(calculateMNConstrainedMLE x1 n1 x2 n2 delta0).p2 -
        (calculateMNConstrainedMLE x1 n1 x2 n2 delta0).p1 - delta0| < 1 / 10 ^ 6) ∧
    (∀ q1 q2 m1 m2 delta0 : ℚ,
      1 / 1000 ≤ (calculateFMRMLE q1 q2 m1 m2 delta0).p1 + delta0 →
      (calculateFMRMLE q1 q2 m1 m2 delta0).p1 + delta0 ≤ 999 / 1000 →
      (calculateFMRMLE q1 q2 m1 m2 delta0).p2 -
        (calculateFMRMLE q1 q2 m1 m2 delta0).p1 - delta0 = 0) := by
  constructor
  · rintro x1 n1 x2 n2 delta0 ⟨p, hp1, hp2, hp3, hp4⟩
    have hlt : p1MinOf delta0 < p1MaxOf delta0 := by
      have hl : p1MinOf delta0 < p := by
        unfold p1MinOf
        exact max_lt hp1 (by linarith)
      have hr : p < p1MaxOf delta0 := by
        unfold p1MaxOf
        exact lt_min hp2 (by linarith)
      exact lt_trans hl hr
    unfold calculateMNConstrainedMLE
    by_cases h1 : |delta0| < 1 / 10 ^ 10
    · rw [if_pos h1]
      show |(x1 + x2) / (n1 + n2) - (x1 + x2) / (n1 + n2) - delta0| < 1 / 10 ^ 6
      have he : (x1 + x2) / (n1 + n2) - (x1 + x2) / (n1 + n2) - delta0 = -delta0 := by ring
      rw [he, abs_neg]
      calc |delta0| < 1 / 10 ^ 10 := h1
        _ < 1 / 10 ^ 6 := by norm_num
    · rw [if_neg h1, if_neg (not_le.mpr hlt)]
      by_cases h3 : mnScoreFunc x1 n1 x2 n2 delta0 (p1MinOf delta0) ≤ 0
      · rw [if_pos h3]
        show |p1MinOf delta0 + delta0 - p1MinOf delta0 - delta0| < 1 / 10 ^ 6
        have he : p1MinOf delta0 + delta0 - p1MinOf delta0 - delta0 = 0 := by ring
        rw [he]
        norm_num
      · rw [if_neg h3]
        by_cases h4 : 0 ≤ mnScoreFunc x1 n1 x2 n2 delta0 (p1MaxOf delta0)
        · rw [if_pos h4]
          show |p1MaxOf delta0 + delta0 - p1MaxOf delta0 - delta0| < 1 / 10 ^ 6
          have he : p1MaxOf delta0 + delta0 - p1MaxOf delta0 - delta0 = 0 := by ring
          rw [he]
          norm_num
        · rw [if_neg h4]
          show |mnBisect (mnScoreFunc x1 n1 x2 n2 delta0) 100 (p1MinOf delta0) (p1MaxOf delta0) +
              delta0 - mnBisect (mnScoreFunc x1 n1 x2 n2 delta0) 100 (p1MinOf delta0)
              (p1MaxOf delta0) - delta0| < 1 / 10 ^ 6
          have he : ∀ q : ℚ, q + delta0 - q - delta0 = 0 := fun q => by ring
          rw [he, abs_zero]
          norm_num
  · intro q1 q2 m1 m2 delta0 hlo hhi
    show max (1 / 1000) (min (999 / 1000)
        ((calculateFMRMLE q1 q2 m1 m2 delta0).p1 + delta0)) -
      (calculateFMRMLE q1 q2 m1 m2 delta0).p1 - delta0 = 0
    rw [min_eq_right hhi, max_eq_right hlo]
    ring

/-- Claim C2, witness for the amended theorem: a feasible MN input
(`x1 = 1, n1 = 2, x2 = 1, n2 = 2, delta0 = 1/4`) and an FM input with the
clamp inactive (`p1Obs = p2Obs = 1/2, n1 = n2 = 10, delta0 = 0`, which
converges on the first Newton step). -/
theorem solver_constraint_deviation_witness :
    |(calculateMNConstrainedMLE 1 2 1 2 (1 / 4)).p2 -
      (calculateMNConstrainedMLE 1 2 1 2 (1 / 4)).p1 - 1 / 4| < 1 / 10 ^ 6 ∧
    (calculateFMRMLE (1 / 2) (1 / 2) 10 10 0).p2 -
      (calculateFMRMLE (1 / 2) (1 / 2) 10 10 0).p1 - 0 = 0 :=
  ⟨solver_constraint_deviation.1 1 2 1 2 (1 / 4)
      ⟨1 / 4, by norm_num, by norm_num, by norm_num, by norm_num⟩,
   solver_constraint_deviation.2 (1 / 2) (1 / 2) 10 10 0 (by decide) (by decide)⟩

/-- Claim C2, counterexample to the original claim: the input
`p1Obs = 1, p2Obs = 0, n1 = n2 = 10, delta0 = -0.999` is feasible (witness
`p1 = 0.9995`), yet `calculateFMRMLE` returns `(0.9995, 0.001)` whose
constraint deviation is `|0.001 - 0.9995 + 0.999| = 0.0005 ≥ 1e-6`. -/
theorem solver_constraint_counterexample :
    (∃ p : ℚ, 1 / 10 ^ 8 < p ∧ p < 1 - 1 / 10 ^ 8 ∧
      1 / 10 ^ 8 < p + (-(999 / 1000)) ∧ p + (-(999 / 1000)) < 1 - 1 / 10 ^ 8) ∧
    ¬ (|(calculateFMRMLE 1 0 10 10 (-(999 / 1000))).p2 -
        (calculateFMRMLE 1 0 10 10 (-(999 / 1000))).p1 - (-(999 / 1000))| < 1 / 10 ^ 6) :=
  ⟨⟨9995 / 10000, by norm_num, by norm_num, by norm_num, by norm_num⟩, by decide⟩

/-! ### Claim C3 -/

/-- Claim C3 (confirmed): with `|delta0| < 1e-10` the Miettinen-Nurminen
solver returns the pooled rate `(x1+x2)/(n1+n2)` for both components, in
closed form (lines 99-103). -/
theorem mn_pooled_closed_form (x1 n1 x2 n2 delta0 : ℚ)
    (h : |delta0| < 1 / 10 ^ 10) :
    calculateMNConstrainedMLE x1 n1 x2 n2 delta0 =
      ⟨(x1 + x2) / (n1 + n2), (x1 + x2) / (n1 + n2)⟩ := by
  unfold calculateMNConstrainedMLE
  rw [if_pos h]

/-- Claim C3, witness at `delta0 = 0`, `x1 = x2 = 1`, `n1 = n2 = 2`. -/
theorem mn_pooled_closed_form_witness :
    |(0 : ℚ)| < 1 / 10 ^ 10 ∧
    calculateMNConstrainedMLE 1 2 1 2 0 = ⟨(1 + 1) / (2 + 2), (1 + 1) / (2 + 2)⟩ :=
  ⟨by norm_num, mn_pooled_closed_form 1 2 1 2 0 (by norm_num)⟩

/-! ### Claim C4 -/

/-- Claim C4 (confirmed): the Miettinen-Nurminen chain multiplies the
plug-in variance of its RMLE by `N/(N-1)` with `N = n1+n2` (both in
`calculateMNResult` and in every `calcZ` re-evaluation inside
`findMNCIBound`), while the Farrington-Manning chain uses the uncorrected
plug-in variance of its RMLE; on any common pair of estimates the two
formulas differ exactly by that factor. -/
theorem variance_correction_factor (phi : ℝ → ℝ)
    (x1 n1 x2 n2 delta0 z_alpha q1 q2 m1 m2 delta1 z_beta : ℚ) (pair : ProbPair) :
    (calculateMNResult phi x1 n1 x2 n2 delta0 z_alpha).zvar =
      ((n1 + n2) / (n1 + n2 - 1)) *
        specVariance (calculateMNConstrainedMLE x1 n1 x2 n2 delta0).p1
          (calculateMNConstrainedMLE x1 n1 x2 n2 delta0).p2 n1 n2 ∧
    (calculateFMResult phi q1 q2 m1 m2 delta1 z_beta).zvar =
      specVariance (calculateFMRMLE q1 q2 m1 m2 delta1).p1
        (calculateFMRMLE q1 q2 m1 m2 delta1).p2 m1 m2 ∧
    mnVarAt x1 n1 x2 n2 delta0 =
      ((n1 + n2) / (n1 + n2 - 1)) *
        specVariance (calculateMNConstrainedMLE x1 n1 x2 n2 delta0).p1
          (calculateMNConstrainedMLE x1 n1 x2 n2 delta0).p2 n1 n2 ∧
    mnVariance pair n1 n2 =
      ((n1 + n2) / (n1 + n2 - 1)) * specVariance pair.p1 pair.p2 n1 n2 :=
  ⟨rfl, rfl, rfl, rfl⟩

/-! ### Claim C8 -/

/-- Claim C8 (refuting the range contract of the spec): at the failing
input `p1Obs = p2Obs = 1, n1 = n2 = 10, delta0 = -0.999`, the
Newton-Raphson boundary fallback (line 43: `min(0.999 - delta0, ...)`,
whose upper clip rises above `1` for negative `delta0`) makes
`calculateFMRMLE` return `p1Star = 1.4995 = 2999/2000`: not in
`(0.001, 0.999)` and not even a probability. -/
theorem fm_rmle_escapes_interval :
    (calculateFMRMLE 1 1 10 10 (-(999 / 1000))).p1 = 2999 / 2000 ∧
    ¬ ((calculateFMRMLE 1 1 10 10 (-(999 / 1000))).p1 < 999 / 1000) ∧
    ¬ ((calculateFMRMLE 1 1 10 10 (-(999 / 1000))).p1 ≤ 1) :=
  ⟨by decide, by decide, by decide⟩

/-! ### Claim C9 -/

/-- Claim C9, amended: with `alpha = 0` the critical quantile
`normalInverse(1 - alpha)` is non-finite and `calculateNIResult` returns —
for every method, without throwing — the fixed sentinel object
`{p1: 0, p2: 0, diff: 0, ci_lower: 0, ci_upper: 0, p_value: 1,
testStatistic: 0, isNonInferior: false}` (lines 338-349), i.e. ordinary
numeric zero/one values rather than the `NaN` sentinels the original claim
describes. -/
theorem ni_alpha_zero_sentinel (phi : ℝ → ℝ) (acklam : ℚ → ℚ)
    (wilsonCI : ℚ → ℚ → ℚ → ℚ × ℚ) (n1 s1 n2 s2 delta : ℚ)
    (useContinuity : Bool) (method : Method) :
    calculateNIResult phi acklam wilsonCI n1 s1 n2 s2 delta 0 useContinuity method =
      zeroRes := by
  unfold calculateNIResult normalInverse
  norm_num

/-- Claim C9, counterexample to the original claim: at `alpha = 0` (method
Wald, counts `5/10` in both groups) the undefined-by-construction fields
come back as the ordinary numbers `p_value = 1`, `ci_lower = 0`,
`testStatistic = 0` — not as NaN sentinels. -/
theorem ni_alpha_zero_not_nan_counterexample :
    (calculateNIResult (fun x => x) (fun q => q) (fun _ _ _ => (0, 0))
        10 5 10 5 (1 / 10) 0 false Method.wald).p_value = 1 ∧
    (calculateNIResult (fun x => x) (fun q => q) (fun _ _ _ => (0, 0))
        10 5 10 5 (1 / 10) 0 false Method.wald).ci_lower = 0 ∧
    (calculateNIResult (fun x => x) (fun q => q) (fun _ _ _ => (0, 0))
        10 5 10 5 (1 / 10) 0 false Method.wald).testStatistic = 0 := by
  unfold calculateNIResult normalInverse
  norm_num [zeroRes]

/-! ### Claim C10 -/

/-- Claim C10, amended: whenever the observed difference lies in
`[-0.9999, 0.9999]` (so that neither initial search bracket is inverted),
the Miettinen-Nurminen confidence interval brackets it:
`ci_lower ≤ diff ≤ ci_upper`. -/
theorem mn_ci_brackets_diff (phi : ℝ → ℝ) (x1 n1 x2 n2 delta0 z_alpha : ℚ)
    (h1 : -(9999 / 10000) ≤ x2 / n2 - x1 / n1)
    (h2 : x2 / n2 - x1 / n1 ≤ 9999 / 10000) :
    (calculateMNResult phi x1 n1 x2 n2 delta0 z_alpha).ci_lower ≤ x2 / n2 - x1 / n1 ∧
    x2 / n2 - x1 / n1 ≤ (calculateMNResult phi x1 n1 x2 n2 delta0 z_alpha).ci_upper := by
  constructor
  · rw [calculateMNResult_ci_lower, findMNCIBound_lower_eq]
    exact (mnLowerLoop_mem _ 100 _ _ (max_le h1 (by linarith))).2
  · rw [calculateMNResult_ci_upper, findMNCIBound_upper_eq]
    exact (mnUpperLoop_mem _ 100 _ _ (le_min h2 (by linarith))).1

/-- Claim C10, witness at `x1 = x2 = 1, n1 = n2 = 2` (observed difference
`0`). -/
theorem mn_ci_brackets_diff_witness :
    (-(9999 / 10000) ≤ (1 : ℚ) / 2 - 1 / 2 ∧ (1 : ℚ) / 2 - 1 / 2 ≤ 9999 / 10000) ∧
    ((calculateMNResult (fun x => x) 1 2 1 2 0 (49 / 25)).ci_lower ≤ 1 / 2 - 1 / 2 ∧
      (1 : ℚ) / 2 - 1 / 2 ≤ (calculateMNResult (fun x => x) 1 2 1 2 0 (49 / 25)).ci_upper) :=
  ⟨⟨by norm_num, by norm_num⟩,
   mn_ci_brackets_diff (fun x => x) 1 2 1 2 0 (49 / 25) (by norm_num) (by norm_num)⟩

/-- Claim C10, counterexample to the original claim: at
`x1 = n1 = 1, x2 = 0, n2 = 1` the observed difference is `-1`, the lower
search bracket `[max(-0.9999, diff - 0.5), diff] = [-0.9999, -1]` is
inverted, and the returned `ci_lower` is strictly greater than `diff`. -/
theorem mn_ci_brackets_diff_counterexample :
    ¬ ((calculateMNResult (fun x => x) 1 1 0 1 0 (49 / 25)).ci_lower ≤
        (0 : ℚ) / 1 - 1 / 1) := by
  rw [not_le, calculateMNResult_ci_lower, findMNCIBound_lower_eq]
  exact mnLowerLoop_gt _ 100 _ _ _ (by norm_num) (by norm_num)

/-! ### Claim C5 -/

/-- The constrained score function is strictly decreasing in `p1` on any
subinterval where all four denominators are positive, provided the counts
are admissible and `n1 > 0` (so at least one of the two group-1 terms is
strictly decreasing). -/
theorem mnScoreFunc_strict_anti (x1 n1 x2 n2 delta0 : ℚ)
    (hx1 : 0 ≤ x1) (hx1n : x1 ≤ n1) (hn1 : 0 < n1)
    (hx2 : 0 ≤ x2) (hx2n : x2 ≤ n2)
    {a b : ℚ} (ha : 0 < a) (hab : a < b) (hb : b < 1)
    (ha2 : 0 < a + delta0) (hb2 : b + delta0 < 1) :
    mnScoreFunc x1 n1 x2 n2 delta0 b < mnScoreFunc x1 n1 x2 n2 delta0 a := by
  have hb0 : 0 < b := lt_trans ha hab
  have hb2' : (0 : ℚ) < b + delta0 := by linarith
  have ha2' : a + delta0 < 1 := by linarith
  have hna : (0 : ℚ) < 1 - a := by linarith
  have hnb : (0 : ℚ) < 1 - b := by linarith
  have hpa : (0 : ℚ) < 1 - (a + delta0) := by linarith
  have hpb : (0 : ℚ) < 1 - (b + delta0) := by linarith
  rw [← sub_pos]
  have key : mnScoreFunc x1 n1 x2 n2 delta0 a - mnScoreFunc x1 n1 x2 n2 delta0 b =
      (b - a) * (x1 / (a * b) + (n1 - x1) / ((1 - a) * (1 - b)) +
        x2 / ((a + delta0) * (b + delta0)) +
        (n2 - x2) / ((1 - (a + delta0)) * (1 - (b + delta0)))) := by
    unfold mnScoreFunc
    field_simp
    ring
  rw [key]
  have t3 : 0 ≤ x2 / ((a + delta0) * (b + delta0)) :=
    div_nonneg hx2 (by positivity)
  have t4 : 0 ≤ (n2 - x2) / ((1 - (a + delta0)) * (1 - (b + delta0))) :=
    div_nonneg (by linarith) (by positivity)
  have t12 : 0 < x1 / (a * b) + (n1 - x1) / ((1 - a) * (1 - b)) := by
    rcases lt_or_eq_of_le hx1 with hx1p | hx1e
    · have h1 : 0 < x1 / (a * b) := div_pos hx1p (by positivity)
      have h2 : 0 ≤ (n1 - x1) / ((1 - a) * (1 - b)) :=
        div_nonneg (by linarith) (by positivity)
      linarith
    · have hxx : (0 : ℚ) < n1 - x1 := by rw [← hx1e]; simpa using hn1
      have h1 : 0 ≤ x1 / (a * b) := div_nonneg hx1 (by positivity)
      have h2 : 0 < (n1 - x1) / ((1 - a) * (1 - b)) := div_pos hxx (by positivity)
      linarith
  have hba : (0 : ℚ) < b - a := by linarith
  exact mul_pos hba (by linarith)

/-- Claim C5 (confirmed): on a feasible input with `|delta0| ≥ 1e-10`, when
the score does not change sign between the interval ends (the code's branch
conditions `score_lo ≤ 0` or `score_hi ≥ 0`, lines 132-137), the MN solver
returns the end point whose score has the strictly smaller absolute value,
with `p2Star` equal to that end point plus `delta0`. -/
theorem mn_endpoint_saturation (x1 n1 x2 n2 delta0 : ℚ)
    (hx1 : 0 ≤ x1) (hx1n : x1 ≤ n1) (hn1 : 0 < n1)
    (hx2 : 0 ≤ x2) (hx2n : x2 ≤ n2) (_hn2 : 0 < n2)
    (hdelta : 1 / 10 ^ 10 ≤ |delta0|)
    (hfeas : ∃ p : ℚ, 1 / 10 ^ 8 < p ∧ p < 1 - 1 / 10 ^ 8 ∧
      1 / 10 ^ 8 < p + delta0 ∧ p + delta0 < 1 - 1 / 10 ^ 8)
    (hnosign : mnScoreFunc x1 n1 x2 n2 delta0 (p1MinOf delta0) ≤ 0 ∨
      0 ≤ mnScoreFunc x1 n1 x2 n2 delta0 (p1MaxOf delta0)) :
    ∃ e : ℚ, calculateMNConstrainedMLE x1 n1 x2 n2 delta0 = ⟨e, e + delta0⟩ ∧
      ((e = p1MinOf delta0 ∧
          |mnScoreFunc x1 n1 x2 n2 delta0 e| <
            |mnScoreFunc x1 n1 x2 n2 delta0 (p1MaxOf delta0)|) ∨
        (e = p1MaxOf delta0 ∧
          |mnScoreFunc x1 n1 x2 n2 delta0 e| <
            |mnScoreFunc x1 n1 x2 n2 delta0 (p1MinOf delta0)|)) := by
  obtain ⟨p, hp1, hp2, hp3, hp4⟩ := hfeas
  have hmin_pos : (0 : ℚ) < p1MinOf delta0 :=
    lt_of_lt_of_le (by norm_num) (le_max_left _ _)
  have hmin2 : (0 : ℚ) < p1MinOf delta0 + delta0 := by
    have h := le_max_right (1 / 10 ^ 8 : ℚ) (-delta0 + 1 / 10 ^ 8)
    unfold p1MinOf
    linarith
  have hmax1 : p1MaxOf delta0 < 1 :=
    lt_of_le_of_lt (min_le_left _ _) (by norm_num)
  have hmax2 : p1MaxOf delta0 + delta0 < 1 := by
    have h := min_le_right (1 - 1 / 10 ^ 8 : ℚ) (1 - delta0 - 1 / 10 ^ 8)
    unfold p1MaxOf
    linarith
  have hlt : p1MinOf delta0 < p1MaxOf delta0 := by
    have hl : p1MinOf delta0 < p := by
      unfold p1MinOf
      exact max_lt hp1 (by linarith)
    have hr : p < p1MaxOf delta0 := by
      unfold p1MaxOf
      exact lt_min hp2 (by linarith)
    exact lt_trans hl hr
  have hanti : mnScoreFunc x1 n1 x2 n2 delta0 (p1MaxOf delta0) <
      mnScoreFunc x1 n1 x2 n2 delta0 (p1MinOf delta0) :=
    mnScoreFunc_strict_anti x1 n1 x2 n2 delta0 hx1 hx1n hn1 hx2 hx2n
      hmin_pos hlt hmax1 hmin2 hmax2
  unfold calculateMNConstrainedMLE
  rw [if_neg (not_lt.mpr hdelta), if_neg (not_le.mpr hlt)]
  by_cases h3 : mnScoreFunc x1 n1 x2 n2 delta0 (p1MinOf delta0) ≤ 0
  · rw [if_pos h3]
    refine ⟨p1MinOf delta0, rfl, Or.inl ⟨rfl, ?_⟩⟩
    rw [abs_of_nonpos h3, abs_of_nonpos (by linarith)]
    linarith
  · rw [if_neg h3]
    have h4 : 0 ≤ mnScoreFunc x1 n1 x2 n2 delta0 (p1MaxOf delta0) :=
      hnosign.resolve_left h3
    rw [if_pos h4]
    refine ⟨p1MaxOf delta0, rfl, Or.inr ⟨rfl, ?_⟩⟩
    rw [abs_of_nonneg h4, abs_of_pos (lt_of_not_le h3)]
    linarith

/-- Claim C5, witness at `x1 = x2 = 0, n1 = n2 = 1, delta0 = 1/2` (where
the score is negative at both ends, so the solver saturates at `p1_min`). -/
theorem mn_endpoint_saturation_witness :
    (1 / 10 ^ 10 ≤ |(1 / 2 : ℚ)|) ∧
    (mnScoreFunc 0 1 0 1 (1 / 2) (p1MinOf (1 / 2)) ≤ 0 ∨
      0 ≤ mnScoreFunc 0 1 0 1 (1 / 2) (p1MaxOf (1 / 2))) ∧
    (∃ e : ℚ, calculateMNConstrainedMLE 0 1 0 1 (1 / 2) = ⟨e, e + 1 / 2⟩ ∧
      ((e = p1MinOf (1 / 2) ∧
          |mnScoreFunc 0 1 0 1 (1 / 2) e| <
            |mnScoreFunc 0 1 0 1 (1 / 2) (p1MaxOf (1 / 2))|) ∨
        (e = p1MaxOf (1 / 2) ∧
          |mnScoreFunc 0 1 0 1 (1 / 2) e| <
            |mnScoreFunc 0 1 0 1 (1 / 2) (p1MinOf (1 / 2))|))) :=
  ⟨by decide, by decide,
   mn_endpoint_saturation 0 1 0 1 (1 / 2) (by norm_num) (by norm_num) (by norm_num)
     (by norm_num) (by norm_num) (by norm_num) (by decide)
     ⟨1 / 10, by norm_num, by norm_num, by norm_num, by norm_num⟩ (by decide)⟩

/-! ### Claim C6 -/

/-- Claim C6, amended: whenever the observed difference lies in
`[-0.9999, 0.9999]`, each bound returned by `findMNCIBound` satisfies the
bisection bracketing guarantee of the code: the lower bound either has
`z > zCritical` (recomputing the full solver → variance → statistic chain
`mnZAt` at it) or is the left end of the fixed search bracket, and some
point at most `1e-8` above it has `z ≤ zCritical` or is `diff` itself;
symmetrically for the upper bound with `-zCritical`.  The original claim's
`|z(bound) ∓ zCritical| < 1e-4` does not follow (and fails, see the
counterexample) because `z` need not cross the critical value inside the
bracket, and the bisection then saturates at a bracket end. -/
theorem mn_ci_bound_bracketing (x1 n1 x2 n2 dif z_alpha : ℚ)
    (h1 : -(9999 / 10000) ≤ dif) (h2 : dif ≤ 9999 / 10000) :
    (((z_alpha : ℝ) < mnZAt x1 n1 x2 n2 dif (findMNCIBound x1 n1 x2 n2 dif z_alpha true) ∨
        findMNCIBound x1 n1 x2 n2 dif z_alpha true = max (-(9999 / 10000)) (dif - 1 / 2)) ∧
      (∃ H : ℚ, findMNCIBound x1 n1 x2 n2 dif z_alpha true ≤ H ∧
        H - findMNCIBound x1 n1 x2 n2 dif z_alpha true < 1 / 10 ^ 8 ∧
        (mnZAt x1 n1 x2 n2 dif H ≤ (z_alpha : ℝ) ∨ H = dif))) ∧
    ((mnZAt x1 n1 x2 n2 dif (findMNCIBound x1 n1 x2 n2 dif z_alpha false) < -(z_alpha : ℝ) ∨
        findMNCIBound x1 n1 x2 n2 dif z_alpha false = min (9999 / 10000) (dif + 1 / 2)) ∧
      (∃ G : ℚ, G ≤ findMNCIBound x1 n1 x2 n2 dif z_alpha false ∧
        findMNCIBound x1 n1 x2 n2 dif z_alpha false - G < 1 / 10 ^ 8 ∧
        (-(z_alpha : ℝ) ≤ mnZAt x1 n1 x2 n2 dif G ∨ G = dif))) := by
  have hMpos : ∀ m : ℚ, (0 : ℚ) < max (mnVarAt x1 n1 x2 n2 m) (1 / 10 ^ 12) :=
    fun m => lt_of_lt_of_le (by norm_num) (le_max_right _ _)
  constructor
  · rw [findMNCIBound_lower_eq]
    have hQ : ∀ m : ℚ,
        (zGtBool (dif - m) z_alpha (max (mnVarAt x1 n1 x2 n2 m) (1 / 10 ^ 12))) = true →
        ((z_alpha : ℝ) < mnZAt x1 n1 x2 n2 dif m ∨
          m = max (-(9999 / 10000)) (dif - 1 / 2)) :=
      fun m hm => Or.inl ((zGtBool_iff _ _ _ (hMpos m)).mp hm)
    have hR : ∀ m : ℚ,
        (zGtBool (dif - m) z_alpha (max (mnVarAt x1 n1 x2 n2 m) (1 / 10 ^ 12))) = false →
        (mnZAt x1 n1 x2 n2 dif m ≤ (z_alpha : ℝ) ∨ m = dif) := by
      intro m hm
      refine Or.inl (not_lt.mp fun hlt => ?_)
      have hcontra := (zGtBool_iff _ _ _ (hMpos m)).mpr hlt
      rw [hm] at hcontra
      exact absurd hcontra (by simp)
    have hle : max (-(9999 / 10000)) (dif - 1 / 2) ≤ dif := max_le h1 (by linarith)
    obtain ⟨hQL, H, hRH, hLH, hsmall⟩ :=
      mnLowerLoop_bracket _ _ _ hQ hR 100 (max (-(9999 / 10000)) (dif - 1 / 2)) dif hle
        (Or.inr rfl) (Or.inr rfl)
    refine ⟨hQL, H, hLH, ?_, hRH⟩
    rcases hsmall with hs | hs
    · exact hs
    · have hw : dif - max (-(9999 / 10000)) (dif - 1 / 2) ≤ 1 / 2 := by
        have := le_max_right (-(9999 / 10000) : ℚ) (dif - 1 / 2)
        linarith
      calc H - mnLowerLoop _ 100 (max (-(9999 / 10000)) (dif - 1 / 2)) dif
          ≤ (dif - max (-(9999 / 10000)) (dif - 1 / 2)) / 2 ^ 100 := hs
        _ ≤ (1 / 2) / 2 ^ 100 := by gcongr
        _ < 1 / 10 ^ 8 := by norm_num
  · rw [findMNCIBound_upper_eq]
    have hQ : ∀ m : ℚ,
        (zGtBool (-(dif - m)) z_alpha (max (mnVarAt x1 n1 x2 n2 m) (1 / 10 ^ 12))) = true →
        (mnZAt x1 n1 x2 n2 dif m < -(z_alpha : ℝ) ∨
          m = min (9999 / 10000) (dif + 1 / 2)) := by
      intro m hm
      refine Or.inl ?_
      have h := (zGtBool_iff _ _ _ (hMpos m)).mp hm
      have hcast : ((-(dif - m) : ℚ) : ℝ) = -((dif - m : ℚ) : ℝ) := by push_cast; ring
      rw [hcast, neg_div] at h
      unfold mnZAt
      linarith
    have hR : ∀ m : ℚ,
        (zGtBool (-(dif - m)) z_alpha (max (mnVarAt x1 n1 x2 n2 m) (1 / 10 ^ 12))) = false →
        (-(z_alpha : ℝ) ≤ mnZAt x1 n1 x2 n2 dif m ∨ m = dif) := by
      intro m hm
      refine Or.inl ?_
      by_contra hlt
      push_neg at hlt
      have h : (z_alpha : ℝ) < ((-(dif - m) : ℚ) : ℝ) /
          Real.sqrt ((max (mnVarAt x1 n1 x2 n2 m) (1 / 10 ^ 12) : ℚ) : ℝ) := by
        have hcast : ((-(dif - m) : ℚ) : ℝ) = -((dif - m : ℚ) : ℝ) := by push_cast; ring
        rw [hcast, neg_div]
        unfold mnZAt at hlt
        linarith
      have hcontra := (zGtBool_iff _ _ _ (hMpos m)).mpr h
      rw [hm] at hcontra
      exact absurd hcontra (by simp)
    have hle : dif ≤ min (9999 / 10000) (dif + 1 / 2) := le_min h2 (by linarith)
    obtain ⟨hQU, G, hRG, hGU, hsmall⟩ :=
      mnUpperLoop_bracket _ _ _ hQ hR 100 dif (min (9999 / 10000) (dif + 1 / 2)) hle
        (Or.inr rfl) (Or.inr rfl)
    refine ⟨hQU, G, hGU, ?_, hRG⟩
    rcases hsmall with hs | hs
    · exact hs
    · have hw : min (9999 / 10000) (dif + 1 / 2) - dif ≤ 1 / 2 := by
        have := min_le_right (9999 / 10000 : ℚ) (dif + 1 / 2)
        linarith
      calc mnUpperLoop _ 100 dif (min (9999 / 10000) (dif + 1 / 2)) - G
          ≤ (min (9999 / 10000) (dif + 1 / 2) - dif) / 2 ^ 100 := hs
        _ ≤ (1 / 2) / 2 ^ 100 := by gcongr
        _ < 1 / 10 ^ 8 := by norm_num

/-- Claim C6, witness for the amended theorem at
`x1 = 0, n1 = 1, x2 = 0, n2 = 1, diff = 0, zCritical = 1.96`. -/
theorem mn_ci_bound_bracketing_witness :
    ((-(9999 / 10000) ≤ (0 : ℚ)) ∧ ((0 : ℚ) ≤ 9999 / 10000)) ∧
    ((((49 / 25 : ℚ) : ℝ) < mnZAt 0 1 0 1 0 (findMNCIBound 0 1 0 1 0 (49 / 25) true) ∨
        findMNCIBound 0 1 0 1 0 (49 / 25) true = max (-(9999 / 10000)) (0 - 1 / 2)) ∧
      (∃ H : ℚ, findMNCIBound 0 1 0 1 0 (49 / 25) true ≤ H ∧
        H - findMNCIBound 0 1 0 1 0 (49 / 25) true < 1 / 10 ^ 8 ∧
        (mnZAt 0 1 0 1 0 H ≤ ((49 / 25 : ℚ) : ℝ) ∨ H = 0))) ∧
    ((mnZAt 0 1 0 1 0 (findMNCIBound 0 1 0 1 0 (49 / 25) false) < -((49 / 25 : ℚ) : ℝ) ∨
        findMNCIBound 0 1 0 1 0 (49 / 25) false = min (9999 / 10000) (0 + 1 / 2)) ∧
      (∃ G : ℚ, G ≤ findMNCIBound 0 1 0 1 0 (49 / 25) false ∧
        findMNCIBound 0 1 0 1 0 (49 / 25) false - G < 1 / 10 ^ 8 ∧
        (-((49 / 25 : ℚ) : ℝ) ≤ mnZAt 0 1 0 1 0 G ∨ G = 0))) :=
  ⟨⟨by norm_num, by norm_num⟩,
   (mn_ci_bound_bracketing 0 1 0 1 0 (49 / 25) (by norm_num) (by norm_num)).1,
   (mn_ci_bound_bracketing 0 1 0 1 0 (49 / 25) (by norm_num) (by norm_num)).2⟩

set_option maxRecDepth 100000 in
/-- Claim C6, counterexample to the original claim: at
`x1 = x2 = 0, n1 = n2 = 1` (observed difference `0`) with
`zCritical = 1.96`, the chain statistic never exceeds `zCritical` inside
the lower search bracket, the bisection saturates at the bracket end
`ci_lower = -0.5`, and re-evaluating the full chain there yields
`z = 0.5/sqrt(0.50000002) < 0.72`, which is not within `1e-4` of
`zCritical = 1.96`. -/
theorem mn_ci_selfconsistency_counterexample :
    findMNCIBound 0 1 0 1 0 (49 / 25) true = -(1 / 2) ∧
    1 / 10 ^ 4 ≤ |mnZAt 0 1 0 1 0 (-(1 / 2)) - ((49 / 25 : ℚ) : ℝ)| := by
  constructor
  · decide
  · have hV1 : (1 / 2 : ℚ) < max (mnVarAt 0 1 0 1 (-(1 / 2))) (1 / 10 ^ 12) := by decide
    have hV1R : ((1 / 2 : ℚ) : ℝ) <
        ((max (mnVarAt 0 1 0 1 (-(1 / 2))) (1 / 10 ^ 12) : ℚ) : ℝ) :=
      Rat.cast_lt.mpr hV1
    have hhalf : ((1 / 2 : ℚ) : ℝ) = 1 / 2 := by norm_num
    rw [hhalf] at hV1R
    have hsq : (7 / 10 : ℝ) <
        Real.sqrt ((max (mnVarAt 0 1 0 1 (-(1 / 2))) (1 / 10 ^ 12) : ℚ) : ℝ) := by
      rw [Real.lt_sqrt (by norm_num)]
      nlinarith [hV1R]
    have hz : mnZAt 0 1 0 1 0 (-(1 / 2)) =
        ((0 - -(1 / 2) : ℚ) : ℝ) /
          Real.sqrt ((max (mnVarAt 0 1 0 1 (-(1 / 2))) (1 / 10 ^ 12) : ℚ) : ℝ) := rfl
    have hnum : ((0 - -(1 / 2) : ℚ) : ℝ) = 1 / 2 := by norm_num
    have hzlt : mnZAt 0 1 0 1 0 (-(1 / 2)) < 5 / 7 := by
      rw [hz, hnum]
      calc (1 / 2 : ℝ) /
            Real.sqrt ((max (mnVarAt 0 1 0 1 (-(1 / 2))) (1 / 10 ^ 12) : ℚ) : ℝ)
          < (1 / 2) / (7 / 10) :=
            div_lt_div_of_pos_left (by norm_num) (by norm_num) hsq
        _ = 5 / 7 := by norm_num
    have hzpos : 0 ≤ mnZAt 0 1 0 1 0 (-(1 / 2)) := by
      rw [hz, hnum]
      positivity
    rw [abs_of_nonpos (by linarith)]
    linarith

/-! ### Claim C7 -/

/-- The `z_score` field of `calculateFMResult`, written out on the exact
rational data. -/
theorem calculateFMResult_z_score (phi : ℝ → ℝ) (p1 p2 n1 n2 delta0 z_alpha : ℚ) :
    (calculateFMResult phi p1 p2 n1 n2 delta0 z_alpha).z_score =
      zOfPair (p2 - p1 - delta0)
        ((calculateFMRMLE p1 p2 n1 n2 delta0).p1 *
            (1 - (calculateFMRMLE p1 p2 n1 n2 delta0).p1) / n1 +
          (calculateFMRMLE p1 p2 n1 n2 delta0).p2 *
            (1 - (calculateFMRMLE p1 p2 n1 n2 delta0).p2) / n2) :=
  rfl

/-- The `mn` branch of `calculateEqResult` (line 788-794): the CI comes
from the Miettinen-Nurminen chain at `delta0 = 0` and the single TOST
variance is that chain's variance. -/
theorem calculateEqResult_mn_eq (phi : ℝ → ℝ) (acklam : ℚ → ℚ)
    (wilsonCI : ℚ → ℚ → ℚ → ℚ × ℚ) (n1 s1 n2 s2 delta alpha z_alpha : ℚ)
    (uc : Bool) (hza : normalInverse acklam (1 - alpha / 2) = some z_alpha) :
    calculateEqResult phi acklam wilsonCI n1 s1 n2 s2 delta alpha uc Method.mn =
      eqTail phi (obsRate s1 n1 uc) (obsRate s2 n2 uc)
        (obsRate s2 n2 uc - obsRate s1 n1 uc) delta
        (((calculateMNResult phi s1 n1 s2 n2 0 z_alpha).ci_lower : ℚ) : ℝ)
        (((calculateMNResult phi s1 n1 s2 n2 0 z_alpha).ci_upper : ℚ) : ℝ)
        (calculateMNResult phi s1 n1 s2 n2 0 z_alpha).zvar := by
  simp only [calculateEqResult, hza]

/-- The `fm` branch of `calculateEqResult` (lines 752-772): no RMLE is
computed; the CI and the single TOST variance use the observed-rate Wald
variance `specVariance`. -/
theorem calculateEqResult_fm_eq (phi : ℝ → ℝ) (acklam : ℚ → ℚ)
    (wilsonCI : ℚ → ℚ → ℚ → ℚ × ℚ) (n1 s1 n2 s2 delta alpha z_alpha : ℚ)
    (uc : Bool) (hza : normalInverse acklam (1 - alpha / 2) = some z_alpha)
    (hn1 : 1 ≤ n1) (hn2 : 1 ≤ n2)
    (hv : 0 < specVariance (obsRate s1 n1 uc) (obsRate s2 n2 uc) n1 n2) :
    calculateEqResult phi acklam wilsonCI n1 s1 n2 s2 delta alpha uc Method.fm =
      eqTail phi (obsRate s1 n1 uc) (obsRate s2 n2 uc)
        (obsRate s2 n2 uc - obsRate s1 n1 uc) delta
        (((obsRate s2 n2 uc - obsRate s1 n1 uc : ℚ) : ℝ) - (z_alpha : ℝ) *
          Real.sqrt ((specVariance (obsRate s1 n1 uc) (obsRate s2 n2 uc) n1 n2 : ℚ) : ℝ))
        (((obsRate s2 n2 uc - obsRate s1 n1 uc : ℚ) : ℝ) + (z_alpha : ℝ) *
          Real.sqrt ((specVariance (obsRate s1 n1 uc) (obsRate s2 n2 uc) n1 n2 : ℚ) : ℝ))
        (specVariance (obsRate s1 n1 uc) (obsRate s2 n2 uc) n1 n2) := by
  have habs1 : ¬ |n1| < 1 / 10 ^ 10 := by
    rw [abs_of_nonneg (by linarith : (0 : ℚ) ≤ n1)]
    exact not_lt.mpr (le_trans (by norm_num) hn1)
  have habs2 : ¬ |n2| < 1 / 10 ^ 10 := by
    rw [abs_of_nonneg (by linarith : (0 : ℚ) ≤ n2)]
    exact not_lt.mpr (le_trans (by norm_num) hn2)
  have hv' : specVariance (obsRate s1 n1 uc) (obsRate s2 n2 uc) n1 n2 =
      safeDivide (obsRate s1 n1 uc * (1 - obsRate s1 n1 uc)) n1 0 +
        safeDivide (obsRate s2 n2 uc * (1 - obsRate s2 n2 uc)) n2 0 := by
    unfold specVariance safeDivide
    rw [if_neg habs1, if_neg habs2]
  simp only [calculateEqResult, hza]
  rw [← hv', if_neg (not_le.mpr hv)]

/-- Claim C7, amended: for the Miettinen-Nurminen and Farrington-Manning
methods, `calculateEqResult` does *not* re-run the constrained-MLE score
chain at `delta0 = ±margin`.  Instead it computes both one-sided TOST
statistics `z1, z2` from a single standard error: for `mn` the standard
error of the MN chain evaluated at `delta0 = 0` (whose CI the result also
reports), for `fm` the observed-rate Wald standard error (no RMLE at all).
The reported `p_value` is the maximum of the two one-sided p-values built
from that shared standard error, and success is declared exactly when both
CI bounds lie strictly inside `(-margin, margin)`. -/
theorem eq_tost_single_se (phi : ℝ → ℝ) (acklam : ℚ → ℚ)
    (wilsonCI : ℚ → ℚ → ℚ → ℚ × ℚ) (n1 s1 n2 s2 delta alpha z_alpha : ℚ) (uc : Bool)
    (hza : normalInverse acklam (1 - alpha / 2) = some z_alpha)
    (hn1 : 1 ≤ n1) (hn2 : 1 ≤ n2)
    (hv : 0 < specVariance (obsRate s1 n1 uc) (obsRate s2 n2 uc) n1 n2) :
    ((calculateEqResult phi acklam wilsonCI n1 s1 n2 s2 delta alpha uc Method.mn).ci_lower =
        (((calculateMNResult phi s1 n1 s2 n2 0 z_alpha).ci_lower : ℚ) : ℝ) ∧
      (calculateEqResult phi acklam wilsonCI n1 s1 n2 s2 delta alpha uc Method.mn).ci_upper =
        (((calculateMNResult phi s1 n1 s2 n2 0 z_alpha).ci_upper : ℚ) : ℝ) ∧
      (calculateEqResult phi acklam wilsonCI n1 s1 n2 s2 delta alpha uc Method.mn).p_value =
        max (1 - phi (tostZ (obsRate s2 n2 uc - obsRate s1 n1 uc + delta)
              (calculateMNResult phi s1 n1 s2 n2 0 z_alpha).zvar))
          (phi (tostZ (obsRate s2 n2 uc - obsRate s1 n1 uc - delta)
              (calculateMNResult phi s1 n1 s2 n2 0 z_alpha).zvar)) ∧
      ((calculateEqResult phi acklam wilsonCI n1 s1 n2 s2 delta alpha uc
          Method.mn).isNonInferior ↔
        ((calculateEqResult phi acklam wilsonCI n1 s1 n2 s2 delta alpha uc
            Method.mn).ci_lower > ((-delta : ℚ) : ℝ) ∧
          (calculateEqResult phi acklam wilsonCI n1 s1 n2 s2 delta alpha uc
            Method.mn).ci_upper < ((delta : ℚ) : ℝ)))) ∧
    ((calculateEqResult phi acklam wilsonCI n1 s1 n2 s2 delta alpha uc Method.fm).p_value =
        max (1 - phi (tostZ (obsRate s2 n2 uc - obsRate s1 n1 uc + delta)
              (specVariance (obsRate s1 n1 uc) (obsRate s2 n2 uc) n1 n2)))
          (phi (tostZ (obsRate s2 n2 uc - obsRate s1 n1 uc - delta)
              (specVariance (obsRate s1 n1 uc) (obsRate s2 n2 uc) n1 n2))) ∧
      (calculateEqResult phi acklam wilsonCI n1 s1 n2 s2 delta alpha uc Method.fm).ci_lower =
        ((obsRate s2 n2 uc - obsRate s1 n1 uc : ℚ) : ℝ) - (z_alpha : ℝ) *
          Real.sqrt ((specVariance (obsRate s1 n1 uc) (obsRate s2 n2 uc) n1 n2 : ℚ) : ℝ) ∧
      (calculateEqResult phi acklam wilsonCI n1 s1 n2 s2 delta alpha uc Method.fm).ci_upper =
        ((obsRate s2 n2 uc - obsRate s1 n1 uc : ℚ) : ℝ) + (z_alpha : ℝ) *
          Real.sqrt ((specVariance (obsRate s1 n1 uc) (obsRate s2 n2 uc) n1 n2 : ℚ) : ℝ) ∧
      ((calculateEqResult phi acklam wilsonCI n1 s1 n2 s2 delta alpha uc
          Method.fm).isNonInferior ↔
        ((calculateEqResult phi acklam wilsonCI n1 s1 n2 s2 delta alpha uc
            Method.fm).ci_lower > ((-delta : ℚ) : ℝ) ∧
          (calculateEqResult phi acklam wilsonCI n1 s1 n2 s2 delta alpha uc
            Method.fm).ci_upper < ((delta : ℚ) : ℝ)))) := by
  rw [calculateEqResult_mn_eq phi acklam wilsonCI n1 s1 n2 s2 delta alpha z_alpha uc hza,
    calculateEqResult_fm_eq phi acklam wilsonCI n1 s1 n2 s2 delta alpha z_alpha uc hza
      hn1 hn2 hv]
  exact ⟨⟨rfl, rfl, rfl, Iff.rfl⟩, ⟨rfl, rfl, rfl, Iff.rfl⟩⟩

/-- Claim C7, witness for the amended theorem at
`n1 = n2 = 10, s1 = s2 = 1, margin = 1/2, alpha = 1/20` with the leaf
quantile returning `1.96` and `Φ` instantiated by the identity. -/
theorem eq_tost_single_se_witness :
    (normalInverse (fun _ : ℚ => (49 / 25 : ℚ)) (1 - (1 / 20) / 2) = some (49 / 25)) ∧
    (0 < specVariance (obsRate 1 10 false) (obsRate 1 10 false) 10 10) ∧
    ((calculateEqResult (fun x : ℝ => x) (fun _ : ℚ => (49 / 25 : ℚ))
        (fun _ _ _ : ℚ => ((0 : ℚ), (0 : ℚ))) 10 1 10 1 (1 / 2) (1 / 20) false
        Method.fm).p_value =
      max (1 - (fun x : ℝ => x) (tostZ (obsRate 1 10 false - obsRate 1 10 false + 1 / 2)
            (specVariance (obsRate 1 10 false) (obsRate 1 10 false) 10 10)))
        ((fun x : ℝ => x) (tostZ (obsRate 1 10 false - obsRate 1 10 false - 1 / 2)
            (specVariance (obsRate 1 10 false) (obsRate 1 10 false) 10 10)))) ∧
    ((calculateEqResult (fun x : ℝ => x) (fun _ : ℚ => (49 / 25 : ℚ))
        (fun _ _ _ : ℚ => ((0 : ℚ), (0 : ℚ))) 10 1 10 1 (1 / 2) (1 / 20) false
        Method.mn).p_value =
      max (1 - (fun x : ℝ => x) (tostZ (obsRate 1 10 false - obsRate 1 10 false + 1 / 2)
            (calculateMNResult (fun x : ℝ => x) 1 10 1 10 0 (49 / 25)).zvar))
        ((fun x : ℝ => x) (tostZ (obsRate 1 10 false - obsRate 1 10 false - 1 / 2)
            (calculateMNResult (fun x : ℝ => x) 1 10 1 10 0 (49 / 25)).zvar))) :=
  ⟨by decide, by decide,
   (eq_tost_single_se (fun x : ℝ => x) (fun _ : ℚ => (49 / 25 : ℚ))
      (fun _ _ _ : ℚ => ((0 : ℚ), (0 : ℚ))) 10 1 10 1 (1 / 2) (1 / 20) (49 / 25) false
      (by decide) (by norm_num) (by norm_num) (by decide)).2.1,
   (eq_tost_single_se (fun x : ℝ => x) (fun _ : ℚ => (49 / 25 : ℚ))
      (fun _ _ _ : ℚ => ((0 : ℚ), (0 : ℚ))) 10 1 10 1 (1 / 2) (1 / 20) (49 / 25) false
      (by decide) (by norm_num) (by norm_num) (by decide)).1.2.2.1⟩

/-- Claim C7, counterexample to the original claim: at
`n1 = n2 = 10, s1 = s2 = 1, margin = 1/2, alpha = 1/20`, method `fm` (with
the quantile leaf returning `1.96` and `Φ` the identity), the reported
`p_value` of `calculateEqResult` — built from the observed-rate Wald
variance `9/500` — differs from the maximum of the two one-sided p-values
obtained by actually re-running the Farrington-Manning chain at
`delta0 = -margin` and `delta0 = +margin` (whose RMLE-based variance at
`-margin` is `228499/10^7 ≠ 9/500`). -/
theorem eq_tost_rechain_counterexample :
    (calculateEqResult (fun x : ℝ => x) (fun _ : ℚ => (49 / 25 : ℚ))
        (fun _ _ _ : ℚ => ((0 : ℚ), (0 : ℚ))) 10 1 10 1 (1 / 2) (1 / 20) false
        Method.fm).p_value ≠
      max (1 - (calculateFMResult (fun x : ℝ => x) (1 / 10) (1 / 10) 10 10 (-(1 / 2))
            (49 / 25)).z_score)
        ((calculateFMResult (fun x : ℝ => x) (1 / 10) (1 / 10) 10 10 (1 / 2)
            (49 / 25)).z_score) := by
  have hfm := calculateEqResult_fm_eq (fun x : ℝ => x) (fun _ : ℚ => (49 / 25 : ℚ))
    (fun _ _ _ : ℚ => ((0 : ℚ), (0 : ℚ))) 10 1 10 1 (1 / 2) (1 / 20) (49 / 25) false
    (by decide) (by norm_num) (by norm_num) (by decide)
  rw [hfm, calculateFMResult_z_score]
  have hveq : specVariance (obsRate 1 10 false) (obsRate 1 10 false) 10 10 = 9 / 500 := by
    decide
  have hVH : (calculateFMRMLE (1 / 10) (1 / 10) 10 10 (-(1 / 2))).p1 *
        (1 - (calculateFMRMLE (1 / 10) (1 / 10) 10 10 (-(1 / 2))).p1) / 10 +
      (calculateFMRMLE (1 / 10) (1 / 10) 10 10 (-(1 / 2))).p2 *
        (1 - (calculateFMRMLE (1 / 10) (1 / 10) 10 10 (-(1 / 2))).p2) / 10 =
      228499 / 10 ^ 7 := by decide
  rw [hveq, hVH]
  show (eqTail (fun x : ℝ => x) (obsRate 1 10 false) (obsRate 1 10 false)
      (obsRate 1 10 false - obsRate 1 10 false) (1 / 2) _ _ (9 / 500)).p_value ≠ _
  have hpv : (eqTail (fun x : ℝ => x) (obsRate 1 10 false) (obsRate 1 10 false)
      (obsRate 1 10 false - obsRate 1 10 false) (1 / 2)
      (((obsRate 1 10 false - obsRate 1 10 false : ℚ) : ℝ) - ((49 / 25 : ℚ) : ℝ) *
        Real.sqrt ((9 / 500 : ℚ) : ℝ))
      (((obsRate 1 10 false - obsRate 1 10 false : ℚ) : ℝ) + ((49 / 25 : ℚ) : ℝ) *
        Real.sqrt ((9 / 500 : ℚ) : ℝ)) (9 / 500)).p_value =
      max (1 - tostZ (obsRate 1 10 false - obsRate 1 10 false + 1 / 2) (9 / 500))
        (tostZ (obsRate 1 10 false - obsRate 1 10 false - 1 / 2) (9 / 500)) := rfl
  rw [hpv]
  apply ne_of_lt
  -- exact values of the two square roots' arguments
  have hsmall_pos : (0 : ℝ) < ((9 / 500 : ℚ) : ℝ) := by push_cast; norm_num
  have hs_pos : (0 : ℝ) < Real.sqrt ((9 / 500 : ℚ) : ℝ) := Real.sqrt_pos.mpr hsmall_pos
  have hguard : ¬ (Real.sqrt ((9 / 500 : ℚ) : ℝ) < 1 / 10 ^ 10) := by
    rw [not_lt]
    rw [show (1 / 10 ^ 10 : ℝ) = |1 / 10 ^ 10| from (abs_of_pos (by norm_num)).symm] at *
    calc (|1 / 10 ^ 10| : ℝ) = 1 / 10 ^ 10 := abs_of_pos (by norm_num)
      _ ≤ Real.sqrt ((9 / 500 : ℚ) : ℝ) := by
          rw [Real.le_sqrt (by norm_num) hsmall_pos.le]
          push_cast
          norm_num
  have hz1 : tostZ (obsRate 1 10 false - obsRate 1 10 false + 1 / 2) (9 / 500) =
      ((obsRate 1 10 false - obsRate 1 10 false + 1 / 2 : ℚ) : ℝ) /
        Real.sqrt ((9 / 500 : ℚ) : ℝ) := by
    unfold tostZ
    rw [if_neg hguard]
  have hz2 : tostZ (obsRate 1 10 false - obsRate 1 10 false - 1 / 2) (9 / 500) =
      ((obsRate 1 10 false - obsRate 1 10 false - 1 / 2 : ℚ) : ℝ) /
        Real.sqrt ((9 / 500 : ℚ) : ℝ) := by
    unfold tostZ
    rw [if_neg hguard]
  have hc1 : ((obsRate 1 10 false - obsRate 1 10 false + 1 / 2 : ℚ) : ℝ) = 1 / 2 := by
    rw [show (obsRate 1 10 false - obsRate 1 10 false + 1 / 2 : ℚ) = 1 / 2 by decide]
    norm_num
  have hc2 : ((obsRate 1 10 false - obsRate 1 10 false - 1 / 2 : ℚ) : ℝ) = -(1 / 2) := by
    rw [show (obsRate 1 10 false - obsRate 1 10 false - 1 / 2 : ℚ) = -(1 / 2) by decide]
    push_cast
    norm_num
  rw [hz1, hz2, hc1, hc2]
  -- the chain statistic at delta0 = -1/2
  have hchain : zOfPair ((1 : ℚ) / 10 - 1 / 10 - -(1 / 2)) (228499 / 10 ^ 7) =
      (((1 : ℚ) / 10 - 1 / 10 - -(1 / 2) : ℚ) : ℝ) / Real.sqrt ((228499 / 10 ^ 7 : ℚ) : ℝ) := by
    unfold zOfPair
    rw [if_pos (by norm_num : (0 : ℚ) < 228499 / 10 ^ 7)]
  have hc3 : (((1 : ℚ) / 10 - 1 / 10 - -(1 / 2) : ℚ) : ℝ) = 1 / 2 := by
    push_cast
    norm_num
  rw [hchain, hc3]
  -- compare: the code's statistic uses sqrt(9/500), the chain sqrt(228499/1e7)
  have hs_big : Real.sqrt ((9 / 500 : ℚ) : ℝ) < Real.sqrt ((228499 / 10 ^ 7 : ℚ) : ℝ) :=
    Real.sqrt_lt_sqrt hsmall_pos.le (by push_cast; norm_num)
  have hdivs : (1 / 2 : ℝ) / Real.sqrt ((228499 / 10 ^ 7 : ℚ) : ℝ) <
      (1 / 2 : ℝ) / Real.sqrt ((9 / 500 : ℚ) : ℝ) :=
    div_lt_div_of_pos_left (by norm_num) hs_pos hs_big
  have hmax_left : max (1 - (1 / 2 : ℝ) / Real.sqrt ((9 / 500 : ℚ) : ℝ))
      (-(1 / 2) / Real.sqrt ((9 / 500 : ℚ) : ℝ)) =
      1 - (1 / 2 : ℝ) / Real.sqrt ((9 / 500 : ℚ) : ℝ) := by
    rw [max_eq_left]
    rw [neg_div]
    linarith
  rw [hmax_left]
  calc 1 - (1 / 2 : ℝ) / Real.sqrt ((9 / 500 : ℚ) : ℝ)
      < 1 - (1 / 2 : ℝ) / Real.sqrt ((228499 / 10 ^ 7 : ℚ) : ℝ) := by linarith
    _ ≤ max (1 - (1 / 2 : ℝ) / Real.sqrt ((228499 / 10 ^ 7 : ℚ) : ℝ))
          ((calculateFMResult (fun x : ℝ => x) (1 / 10) (1 / 10) 10 10 (1 / 2)
            (49 / 25)).z_score) := le_max_left _ _

end TwoGroup
